import Mathlib

/-!
Verification development for the Phaser mini-game builder (`src/app.py`).

The file embeds the pure string-processing core of the application in Lean:

* `_seq_to_list` — comma splitting with Python `str.strip()` semantics;
* `build_phaser_html` — the f-string HTML scaffold, including the
  `json.dumps` serialisations it interpolates;
* `try_parse_json` — the brace-span regex extraction plus a model of
  `json.loads`;
* `apply_design_to_config` — the design-JSON merge, with Python `int()`
  string parsing;
* `inject` — the spec's asset-placeholder injector (absent from the
  source tree, modelled from the specification text).

Python strings are modelled as Lean `String` (sequences of Unicode scalar
values); Python `int` as `Int`.  Model scope notes: JSON numbers are
restricted to integers (floating-point values are outside the embedding,
so the `json.loads` model rejects fraction/exponent forms that Python
would decode as `float`), and `\uXXXX` escapes denoting lone surrogates —
which Python would keep as unpaired surrogate code units — are rejected,
since Lean `Char` has no surrogate code points.
-/

/-! ## Substring occurrence -/

/-- `p` occurs somewhere inside `s` (contiguously). -/
def occursIn (p s : String) : Prop := p.data <:+: s.data

instance occursInDecidable (p s : String) : Decidable (occursIn p s) :=
  inferInstanceAs (Decidable (p.data <:+: s.data))

/-! ## Python primitives -/

/-- The characters Python `str.isspace` (and hence bare `str.strip()` /
`int(str)` whitespace trimming) treats as whitespace. -/
def pythonIsSpace (c : Char) : Bool :=
  let n := c.toNat
  (9 ≤ n && n ≤ 13) || n == 32 || (28 ≤ n && n ≤ 31) || n == 0x85 || n == 0xa0 ||
    n == 0x1680 || (0x2000 ≤ n && n ≤ 0x200a) || n == 0x2028 || n == 0x2029 ||
    n == 0x202f || n == 0x205f || n == 0x3000

/-- Python `str.strip(chars)`: drop the selected characters from both ends. -/
def pyStripChars (sel : Char → Bool) (cs : List Char) : List Char :=
  ((cs.dropWhile sel).reverse.dropWhile sel).reverse

/-- Python bare `str.strip()` (whitespace). -/
def pyStrip (s : String) : String := ⟨pyStripChars pythonIsSpace s.data⟩

/-- Python `str.strip('#')`, as used on the colour fields. -/
def pyStripHash (s : String) : String := ⟨pyStripChars (· == '#') s.data⟩

/-- Python `seq.split(",")` on character lists (keeps empty pieces). -/
def splitCommaAux : List Char → List Char → List (List Char)
  | [], acc => [acc.reverse]
  | c :: rest, acc =>
    if c = ',' then acc.reverse :: splitCommaAux rest [] else splitCommaAux rest (c :: acc)

/-- `src/app.py` line 146–147:
`[c.strip() for c in seq.split(",") if c.strip()]`. -/
def _seq_to_list (seq : String) : List String :=
  ((splitCommaAux seq.data []).map
      (fun cs => (⟨pyStripChars pythonIsSpace cs⟩ : String))).filter (fun t => t != "")

/-! ## `json.dumps` serialisation pieces (default separators, `ensure_ascii`) -/

/-- Decimal digit character. -/
def digitChar (d : Nat) : Char := Char.ofNat (48 + d)

/-- Lowercase hexadecimal digit character, as `'\u%04x' % n` produces. -/
def hexDigitChar (d : Nat) : Char := if d < 10 then Char.ofNat (48 + d) else Char.ofNat (87 + d)

/-- Big-endian decimal digits of `n` prepended to `acc` (fuel-indexed so the
definition reduces inside the kernel; any fuel above the digit count agrees). -/
def natDigitsGo : Nat → Nat → List Char → List Char
  | 0, _, acc => acc
  | fuel + 1, n, acc =>
    if n = 0 then acc else natDigitsGo fuel (n / 10) (digitChar (n % 10) :: acc)

/-- Decimal representation of a natural number (Python `repr`). -/
def natChars (n : Nat) : List Char := if n = 0 then ['0'] else natDigitsGo (n + 1) n []

/-- Decimal representation of a Python integer. -/
def intChars (i : Int) : List Char := if i < 0 then '-' :: natChars (-i).toNat else natChars i.toNat

/-- Decimal representation of a Python integer, as a string. -/
def intRepr (i : Int) : String := ⟨intChars i⟩

/-- The six-character `\uXXXX` escape emitted for code unit `n < 0x10000`. -/
def uEscape (n : Nat) : List Char :=
  ['\\', 'u', hexDigitChar (n / 4096 % 16), hexDigitChar (n / 256 % 16),
    hexDigitChar (n / 16 % 16), hexDigitChar (n % 16)]

/-- `json.dumps` escaping of one character under the default `ensure_ascii=True`:
`"` and `\` are backslash-escaped, the five named control escapes are used,
other characters outside `0x20..0x7e` become `\uXXXX` (with a surrogate pair
for astral code points), and printable ASCII passes through. -/
def jsonEscapeChar (c : Char) : List Char :=
  if c = '"' then ['\\', '"']
  else if c = '\\' then ['\\', '\\']
  else if c.toNat = 8 then ['\\', 'b']
  else if c.toNat = 9 then ['\\', 't']
  else if c.toNat = 10 then ['\\', 'n']
  else if c.toNat = 12 then ['\\', 'f']
  else if c.toNat = 13 then ['\\', 'r']
  else if 32 ≤ c.toNat ∧ c.toNat ≤ 126 then [c]
  else if c.toNat < 65536 then uEscape c.toNat
  else uEscape (0xd800 + (c.toNat - 0x10000) / 0x400) ++
       uEscape (0xdc00 + (c.toNat - 0x10000) % 0x400)

/-- `json.dumps` escaping of a whole character sequence. -/
def escChars : List Char → List Char
  | [] => []
  | c :: cs => jsonEscapeChar c ++ escChars cs

/-- `json.dumps` of a string, as characters: quoted and escaped. -/
def jsonQuoteChars (cs : List Char) : List Char := '"' :: (escChars cs ++ ['"'])

/-- `json.dumps` of a string. -/
def jsonQuote (s : String) : String := ⟨jsonQuoteChars s.data⟩

/-- `json.dumps` of a list of strings (default `", "` separator). -/
def jsonDumpsStrList (l : List String) : String :=
  "[" ++ String.intercalate ", " (l.map jsonQuote) ++ "]"

/-! ## The game configuration (`GameConfig` dataclass, `src/app.py` 126–144) -/

structure GameConfig where
  title : String := "Two-Stage Card-Track Mini-Game"
  canvas_w : Int := 720
  canvas_h : Int := 1280
  tutorial_delay_ms : Int := 3000
  stage1_sequence : String := "K,Q,4,5,6,7,8"
  stage2_sequence : String := "6,7,8"
  hand_offset_x : Int := 60
  hand_offset_y : Int := 90
  theme_color_bg : String := "#0b1116"
  theme_color_track : String := "#CDAA6E"
  theme_color_card : String := "#121a21"
  theme_color_card_text : String := "#e6f1f5"
  theme_color_train : String := "#57c7ff"
  theme_color_cta : String := "#a7f37f"
  hint_text : String := "Tap the highlighted card to lay tracks!"
  cta_text : String := "PLAY FULL GAME"
  cta_url : String := "https://play.google.com/store/apps/details?id=com.brightpointstudios.apps.castle_royal"
deriving DecidableEq

/-- `GameConfig()` with all dataclass defaults. -/
def defaultGameConfig : GameConfig := {}

/-- A config whose stage sequences are whitespace/comma-only (for witnesses). -/
def emptyStagesConfig : GameConfig := { stage1_sequence := " , ", stage2_sequence := "" }

/-- `json.dumps(asdict(cfg))`: the dataclass fields serialised in declaration
order with the default `", "` / `": "` separators. -/
def jsonDumpsConfig (cfg : GameConfig) : String :=
  "\x7b\"title\": " ++ jsonQuote cfg.title
  ++ ", \"canvas_w\": " ++ intRepr cfg.canvas_w
  ++ ", \"canvas_h\": " ++ intRepr cfg.canvas_h
  ++ ", \"tutorial_delay_ms\": " ++ intRepr cfg.tutorial_delay_ms
  ++ ", \"stage1_sequence\": " ++ jsonQuote cfg.stage1_sequence
  ++ ", \"stage2_sequence\": " ++ jsonQuote cfg.stage2_sequence
  ++ ", \"hand_offset_x\": " ++ intRepr cfg.hand_offset_x
  ++ ", \"hand_offset_y\": " ++ intRepr cfg.hand_offset_y
  ++ ", \"theme_color_bg\": " ++ jsonQuote cfg.theme_color_bg
  ++ ", \"theme_color_track\": " ++ jsonQuote cfg.theme_color_track
  ++ ", \"theme_color_card\": " ++ jsonQuote cfg.theme_color_card
  ++ ", \"theme_color_card_text\": " ++ jsonQuote cfg.theme_color_card_text
  ++ ", \"theme_color_train\": " ++ jsonQuote cfg.theme_color_train
  ++ ", \"theme_color_cta\": " ++ jsonQuote cfg.theme_color_cta
  ++ ", \"hint_text\": " ++ jsonQuote cfg.hint_text
  ++ ", \"cta_text\": " ++ jsonQuote cfg.cta_text
  ++ ", \"cta_url\": " ++ jsonQuote cfg.cta_url
  ++ "\x7d"

/-! ## The f-string template of `build_phaser_html` (`src/app.py` 149–309)

The fixed text between the 13 interpolation holes, in order.  `{{`/`}}`
in the Python f-string denote literal braces (written `\x7b`/`\x7d` here);
apostrophes are written `\x27`. -/

def tpl0 : String :=
  "<!DOCTYPE html>\n<html>\n  <head>\n    <meta charset=\"utf-8\" />\n    <title>"

def tpl1 : String :=
  "</title>\n    <meta name=\"viewport\" content=\"width=device-width, initial-scale=1\" />\n    <script src=\"https://cdn.jsdelivr.net/npm/phaser@3/dist/phaser.js\"></script>\n    <style>\n      html, body \x7b margin:0; padding:0; background:"

def tpl2 : String :=
  "; \x7d\n      #wrap \x7b width:100%; display:flex; justify-content:center; \x7d\n      .hint \x7b\n        font-family: system-ui, -apple-system, Segoe UI, Roboto, sans-serif;\n        color:"

def tpl3 : String :=
  "; text-align:center; margin-top:8px; opacity:.85\n      \x7d\n    </style>\n  </head>\n  <body>\n    <div id=\"wrap\"></div>\n    <div class=\"hint\">"

def tpl4 : String :=
  "</div>\n    <script>\n      const CFG = "

def tpl5 : String :=
  ";\n      const STAGE1 = "

def tpl6 : String :=
  ";\n      const STAGE2 = "

def tpl7 : String :=
  ";\n      const W = CFG.canvas_w, H = CFG.canvas_h;\n      const TRACK_COLOR = 0x"

def tpl8 : String :=
  ";\n      const CARD_COLOR = 0x"

def tpl9 : String :=
  ";\n      const CARD_TEXT = \""

def tpl10 : String :=
  "\";\n      const TRAIN_COLOR = 0x"

def tpl11 : String :=
  ";\n      const CTA_COLOR = 0x"

def tpl12 : String :=
  ";\n\n      let handSprite = null, lastHandTime = 0, lastTappedKey = null;\n      let gameComplete = false, flow = 1; let idx1 = 0, idx2 = 0;\n      let cards = [], tracks = [];\n\n      const config = \x7b\n        type: Phaser.AUTO, width: W, height: H,\n        backgroundColor: \""

def tpl13 : String :=
  "\",\n        parent: \"wrap\",\n        scale: \x7b mode: Phaser.Scale.FIT, autoCenter: Phaser.Scale.CENTER_BOTH \x7d,\n        scene: \x7b preload, create, update \x7d\n      \x7d;\n      new Phaser.Game(config);\n\n      function drawCard(scene, x, y, key, angle=0) \x7b\n        const cw = 94, ch = 134;\n        const rect = scene.add.rectangle(x, y, cw, ch, CARD_COLOR).setStrokeStyle(2, 0xffffff, 0.13);\n"
  ++ "        rect.setAngle(angle).setInteractive(\x7b cursor:\x27pointer\x27 \x7d);\n        const label = scene.add.text(x, y, key, \x7b fontFamily:\x27monospace\x27, fontSize:\x2732px\x27, color:CARD_TEXT \x7d).setOrigin(0.5);\n        label.setAngle(angle);\n        rect.on(\x27pointerdown\x27, () => onCardTap(scene, key, rect, label));\n        return \x7b key, rect, label \x7d;\n"
  ++ "      \x7d\n\n      function addTrackPiece(scene, x, y, h=120) \x7b\n        const track = scene.add.rectangle(x, y, 14, h, TRACK_COLOR);\n        track.alpha = 0;\n        scene.tweens.add(\x7b targets: track, alpha:1, duration:280, ease:\x27Quad.easeIn\x27 \x7d);\n        tracks.push(track);\n      \x7d\n\n      function wrongShake(scene, rect) \x7b\n"
  ++ "        const ox = rect.x;\n        scene.tweens.add(\x7b targets: rect, x: ox+8, yoyo:true, repeat:2, duration:60, onComplete:() => rect.x = ox \x7d);\n      \x7d\n\n      function onCardTap(scene, key, rect, label) \x7b\n        const expect = (flow===1) ? STAGE1[idx1] : STAGE2[idx2];\n        if (key !== expect || gameComplete) \x7b wrongShake(scene, rect); return; \x7d\n"
  ++ "        lastTappedKey = key; rect.disableInteractive();\n        const tx = W*0.72, ty = H*0.83;\n        scene.tweens.add(\x7b\n          targets:[rect,label], x:tx, y:ty, angle:0, duration:340, ease:\x27Quad.easeInOut\x27,\n          onComplete:() => \x7b\n            if (flow===1 && idx1>=3) addTrackPiece(scene, W*0.12, H*0.72-(idx1-3)*130, 110);\n"
  ++ "            if (flow===2) addTrackPiece(scene, W*0.12, H*0.72-(idx2)*130, 110);\n            advance(scene);\n          \x7d\n        \x7d);\n      \x7d\n\n      function advance(scene) \x7b\n        if (flow===1) \x7b\n          idx1++; if (idx1>=STAGE1.length) trainMove(scene, () => layoutStage2(scene));\n        \x7d else \x7b\n"
  ++ "          idx2++; if (idx2>=STAGE2.length) \x7b gameComplete=true; finalSequence(scene); \x7d\n        \x7d\n      \x7d\n\n      function trainMove(scene, after) \x7b\n        const train = scene.add.rectangle(W*0.2, H*0.9, 80, 40, TRAIN_COLOR);\n        scene.tweens.add(\x7b targets:train, y:H*0.12, duration:1200, ease:\x27Cubic.easeInOut\x27,\n"
  ++ "          onComplete:()=>\x7b train.destroy(); after && after(); \x7d \x7d);\n      \x7d\n\n      function clearCards() \x7b cards.forEach(c=>\x7bc.rect.destroy(); c.label.destroy();\x7d); cards=[]; \x7d\n      function clearTracks() \x7b tracks.forEach(t=>t.destroy()); tracks=[]; \x7d\n\n      function layoutStage1(scene) \x7b\n        clearCards(); clearTracks(); flow=1; idx1=0; idx2=0; gameComplete=false;\n"
  ++ "        const left=W*0.40, right=W*0.65, yTop=H*0.45, yBot=H*0.65;\n        cards.push(drawCard(scene, left,  H*0.35, \x27K\x27, 0));\n        cards.push(drawCard(scene, right, H*0.35, \x27Q\x27, 0));\n        const bottom=[\x274\x27,\x275\x27,\x276\x27,\x277\x27,\x278\x27];\n        const pos=[[W*0.55,H*0.8],[left,yTop],[right,yTop],[left,yBot],[right,yBot]];\n"
  ++ "        bottom.forEach((k,i)=>\x7b const [x,y]=pos[i]; const ang=(i==1?-15:(i==2?15:(i==3?15:(i==4?-15:0))));\n          cards.push(drawCard(scene,x,y,k,ang)); \x7d);\n        lastHandTime = scene.time.now;\n      \x7d\n\n      function layoutStage2(scene) \x7b\n        clearCards(); flow=2; idx2=0;\n        const xmid=W*0.55, y0=H*0.5;\n"
  ++ "        cards.push(drawCard(scene, xmid,     y0,    \x276\x27, 0));\n        cards.push(drawCard(scene, xmid-120, y0,    \x277\x27, -10));\n        cards.push(drawCard(scene, xmid+120, y0,    \x278\x27, 10));\n        cards.push(drawCard(scene, xmid,     y0+160,\x275\x27, 0));\n        lastHandTime = scene.time.now;\n      \x7d\n\n      function finalSequence(scene) \x7b\n"
  ++ "        const cta = scene.add.rectangle(W*0.5, H*0.75, 280, 64, CTA_COLOR).setInteractive(\x7bcursor:\x27pointer\x27\x7d);\n        scene.add.text(W*0.5, H*0.75, CFG.cta_text, \x7b\n          fontFamily:\x27system-ui, -apple-system, Segoe UI, Roboto, sans-serif\x27, fontSize:\x2720px\x27, color:\x27#111\x27\n        \x7d).setOrigin(0.5);\n"
  ++ "        scene.tweens.add(\x7b targets:cta, scaleX:1.06, scaleY:1.06, yoyo:true, repeat:-1, duration:1200, ease:\x27Sine.easeInOut\x27 \x7d);\n        cta.on(\x27pointerdown\x27, ()=> window.open(CFG.cta_url, \x27_blank\x27));\n      \x7d\n\n      function getNextCardKey() \x7b if (gameComplete) return null; return (flow===1) ? STAGE1[idx1]||null : STAGE2[idx2]||null; \x7d\n"
  ++ "\n      function showTutorialHand(scene) \x7b\n        const target = getNextCardKey(); if (!target || target===lastTappedKey) return;\n        const c = cards.find(cc=>cc.key===target); if (!c) return;\n        const g = scene.add.graphics();\n        g.fillStyle(0xffffff, 0.9);\n        g.fillTriangle(c.rect.x+CFG.hand_offset_x, c.rect.y+CFG.hand_offset_y,\n"
  ++ "                       c.rect.x+CFG.hand_offset_x-18, c.rect.y+CFG.hand_offset_y+36,\n                       c.rect.x+CFG.hand_offset_x+18, c.rect.y+CFG.hand_offset_y+36);\n        handSprite = g;\n        scene.tweens.add(\x7b targets:g, alpha:0, duration:1200, ease:\x27Sine.easeOut\x27,\n          onComplete:()=>\x7b if(handSprite)\x7bhandSprite.destroy(); handSprite=null;\x7d \x7d \x7d);\n"
  ++ "      \x7d\n\n      function preload()\x7b\x7d\n      function create() \x7b\n        layoutStage1(this);\n        this.time.addEvent(\x7b\n          delay: 250, loop: true, callback: ()=>\x7b\n            if (!gameComplete && (this.time.now - lastHandTime) > CFG.tutorial_delay_ms && !handSprite) \x7b\n              showTutorialHand(this); lastHandTime = this.time.now;\n"

def tpl14 : String :=
  "            \x7d\n          \x7d\n        \x7d);\n      \x7d\n      function update()\x7b\x7d\n    </script>\n  </body>\n</html>"

/-- `src/app.py` 149–309: `build_phaser_html(cfg)` — the f-string template
with its 13 interpolation holes filled (`s1`/`s2` are `_seq_to_list` of the
stage sequences; the config is serialised with `json.dumps(asdict(cfg))`;
colour constants drop `#` with `.strip('#')`). -/
def build_phaser_html (cfg : GameConfig) : String :=
  tpl0 ++ cfg.title
  ++ tpl1 ++ cfg.theme_color_bg
  ++ tpl2 ++ cfg.theme_color_card_text
  ++ tpl3 ++ cfg.hint_text
  ++ tpl4 ++ jsonDumpsConfig cfg
  ++ tpl5 ++ jsonDumpsStrList (_seq_to_list cfg.stage1_sequence)
  ++ tpl6 ++ jsonDumpsStrList (_seq_to_list cfg.stage2_sequence)
  ++ tpl7 ++ pyStripHash cfg.theme_color_track
  ++ tpl8 ++ pyStripHash cfg.theme_color_card
  ++ tpl9 ++ cfg.theme_color_card_text
  ++ tpl10 ++ pyStripHash cfg.theme_color_train
  ++ tpl11 ++ pyStripHash cfg.theme_color_cta
  ++ tpl12 ++ cfg.theme_color_bg
  ++ tpl13 ++ tpl14

/-- Modelled from the spec (§4.2 `is_full_document`, absent from `src/`):
true iff the text contains an opening and a closing document-root tag,
case-insensitively, anywhere in the text. -/
def is_full_document (text : String) : Bool :=
  let low := text.data.map Char.toLower
  decide ("<html>".data <:+: low) && decide ("</html>".data <:+: low)

/-- The stage-sequence strings that C3 calls "empty or whitespace-only":
every character is a comma or Python whitespace (this includes `""`). -/
def commaWsOnly (s : String) : Prop := ∀ c ∈ s.data, c = ',' ∨ pythonIsSpace c = true

instance commaWsOnlyDecidable (s : String) : Decidable (commaWsOnly s) :=
  inferInstanceAs (Decidable (∀ c ∈ s.data, c = ',' ∨ pythonIsSpace c = true))


/-! ## Python values and `apply_design_to_config` (`src/app.py` 341–368) -/

/-- A Python value as it can appear in a parsed design dictionary.
Scope: the claims about `apply_design_to_config` quantify over string
values (plus `None` and the integers the schema supplies), so the model
carries exactly these. -/
inductive PyVal where
  | pyNone
  | pyStr (s : String)
  | pyInt (n : Int)
deriving DecidableEq

/-- A modelled Python exception. -/
inductive PyErr where
  | valueError
  | typeMismatch
deriving DecidableEq

/-- A design dictionary (`Dict[str, Any]`), by its lookup function. -/
def Design : Type := String → Option PyVal

/-- Digit run with Python's underscore grouping: an underscore must sit
between two digits. -/
def pyDigitsUndGo : Nat → List Char → Option Nat
  | acc, [] => some acc
  | acc, '_' :: c :: rest =>
    if c.isDigit then pyDigitsUndGo (acc * 10 + (c.toNat - 48)) rest else none
  | _, ['_'] => none
  | acc, c :: rest =>
    if c.isDigit then pyDigitsUndGo (acc * 10 + (c.toNat - 48)) rest else none

/-- First digit of a Python integer literal (after the optional sign). -/
def pyParseIntStart : List Char → Option Nat
  | [] => none
  | c :: rest => if c.isDigit then pyDigitsUndGo (c.toNat - 48) rest else none

/-- Python `int(s)` on a string: whitespace is stripped, an optional sign
allowed, then one or more digits with underscore grouping; `none` models a
raised `ValueError`.  (Scope: ASCII digits; Python also accepts other
Unicode decimal digits.) -/
def pyParseInt (s : String) : Option Int :=
  match pyStripChars pythonIsSpace s.data with
  | '-' :: rest => (pyParseIntStart rest).map (fun n => -(n : Int))
  | '+' :: rest => (pyParseIntStart rest).map (fun n => (n : Int))
  | rest => (pyParseIntStart rest).map (fun n => (n : Int))

/-- Python `int(v)` on a design value; `.error` models the raised
`ValueError`/`TypeError`. -/
def pyToInt : PyVal → Except PyErr Int
  | .pyInt n => .ok n
  | .pyStr s =>
    match pyParseInt s with
    | some n => .ok n
    | none => .error .valueError
  | .pyNone => .error .valueError

/-- The inner `get(k, default)` of `apply_design_to_config`:
`v = data.get(k, default); return v if v not in (None, "") else default`. -/
def designGet (data : Design) (k : String) (default : PyVal) : PyVal :=
  match data k with
  | some v => if v = .pyNone ∨ v = .pyStr "" then default else v
  | none => default

/-- `cfg.<field> = get(k, cfg.<field>)` for a string-typed field.  Python
would store a non-string value unchanged into the field (dynamic typing);
the typed model cannot hold an `int` in a string field and reports
`typeMismatch` for that out-of-model case — the theorems below restrict
string-keyed values to strings/`None`, exactly the claims' scope. -/
def designGetStr (data : Design) (k : String) (old : String) : Except PyErr String :=
  match designGet data k (.pyStr old) with
  | .pyStr s => .ok s
  | .pyNone => .ok old
  | .pyInt _ => .error .typeMismatch

/-- `int(get(k, cfg.<field>))` for the three integer fields. -/
def designGetInt (data : Design) (k : String) (old : Int) : Except PyErr Int :=
  pyToInt (designGet data k (.pyInt old))

/-- `src/app.py` 349–368: `apply_design_to_config(data, cfg)` — each field in
source order; the Python function mutates `cfg` and returns it, modelled
functionally; an `.error` models an uncaught exception escaping the call. -/
def apply_design_to_config (data : Design) (cfg : GameConfig) : Except PyErr GameConfig :=
  (designGetStr data "title" cfg.title).bind fun title =>
  (designGetStr data "stage1_sequence" cfg.stage1_sequence).bind fun stage1_sequence =>
  (designGetStr data "stage2_sequence" cfg.stage2_sequence).bind fun stage2_sequence =>
  (designGetInt data "tutorial_delay_ms" cfg.tutorial_delay_ms).bind fun tutorial_delay_ms =>
  (designGetInt data "hand_offset_x" cfg.hand_offset_x).bind fun hand_offset_x =>
  (designGetInt data "hand_offset_y" cfg.hand_offset_y).bind fun hand_offset_y =>
  (designGetStr data "theme_color_bg" cfg.theme_color_bg).bind fun theme_color_bg =>
  (designGetStr data "theme_color_track" cfg.theme_color_track).bind fun theme_color_track =>
  (designGetStr data "theme_color_card" cfg.theme_color_card).bind fun theme_color_card =>
  (designGetStr data "theme_color_card_text" cfg.theme_color_card_text).bind fun theme_color_card_text =>
  (designGetStr data "theme_color_train" cfg.theme_color_train).bind fun theme_color_train =>
  (designGetStr data "theme_color_cta" cfg.theme_color_cta).bind fun theme_color_cta =>
  (designGetStr data "hint_text" cfg.hint_text).bind fun hint_text =>
  (designGetStr data "cta_text" cfg.cta_text).bind fun cta_text =>
  (designGetStr data "cta_url" cfg.cta_url).bind fun cta_url =>
  .ok { cfg with
    title := title, stage1_sequence := stage1_sequence, stage2_sequence := stage2_sequence,
    tutorial_delay_ms := tutorial_delay_ms, hand_offset_x := hand_offset_x,
    hand_offset_y := hand_offset_y, theme_color_bg := theme_color_bg,
    theme_color_track := theme_color_track, theme_color_card := theme_color_card,
    theme_color_card_text := theme_color_card_text, theme_color_train := theme_color_train,
    theme_color_cta := theme_color_cta, hint_text := hint_text, cta_text := cta_text,
    cta_url := cta_url }

/-- What a successful string-field merge returns, as a function of the raw
dictionary entry: a present, non-`None`, nonempty string overwrites; all
blank shapes fall back to the old value. -/
def strResult (v : Option PyVal) (old : String) : String :=
  match v with
  | some (.pyStr s) => if s = "" then old else s
  | _ => old

/-- What a successful integer-field merge returns: a present int is taken
directly, a present nonempty parseable string is parsed, blanks fall back. -/
def intResult (v : Option PyVal) (old : Int) : Int :=
  match v with
  | some (.pyStr s) => if s = "" then old else (pyParseInt s).getD old
  | some (.pyInt n) => n
  | _ => old

/-- Dictionary entry acceptable for a string field (string/`None`/absent). -/
def strValOk : Option PyVal → Bool
  | some (.pyInt _) => false
  | _ => true

/-- Dictionary entry acceptable for an integer field: absent, `None`, an
int, the empty string, or a string Python `int()` accepts. -/
def intValOk : Option PyVal → Bool
  | some (.pyStr s) => s == "" || (pyParseInt s).isSome
  | _ => true

/-- The twelve string-typed keys `apply_design_to_config` reads. -/
def strFieldKeys : List String :=
  ["title", "stage1_sequence", "stage2_sequence", "theme_color_bg", "theme_color_track",
   "theme_color_card", "theme_color_card_text", "theme_color_train", "theme_color_cta",
   "hint_text", "cta_text", "cta_url"]

/-- The three integer-typed keys `apply_design_to_config` reads. -/
def intFieldKeys : List String := ["tutorial_delay_ms", "hand_offset_x", "hand_offset_y"]

/-- The key is absent, or mapped to `None` or the empty string. -/
def blankKey (data : Design) (k : String) : Prop :=
  data k = none ∨ data k = some .pyNone ∨ data k = some (.pyStr "")

instance blankKeyDecidable (data : Design) (k : String) : Decidable (blankKey data k) :=
  inferInstanceAs (Decidable (_ ∨ _ ∨ _))

/-- A design whose `tutorial_delay_ms` is a malformed integer string. -/
def badDesign : Design :=
  fun k => if k = "tutorial_delay_ms" then some (.pyStr "abc") else none

/-- A design that only overwrites the title. -/
def titleOnlyDesign : Design :=
  fun k => if k = "title" then some (.pyStr "New Title") else none

/-- A design with a string title and an underscore-grouped delay string. -/
def goodDesign : Design :=
  fun k =>
    if k = "title" then some (.pyStr "Neo")
    else if k = "tutorial_delay_ms" then some (.pyStr " 2_500 ") else none


/-! ## The spec's placeholder injector (spec 4.1; absent from `src/`) -/

/-- Python `"".replace("", rep)`-style insertion: with an empty pattern,
`rep` is inserted at every position (`"abc".replace("", "-") = "-a-b-c-"`). -/
def replaceEmptyPat (rep : List Char) : List Char → List Char
  | [] => rep
  | c :: rest => rep ++ c :: replaceEmptyPat rep rest

/-- Python `str.replace` scanning for a nonempty pattern: leftmost match,
non-overlapping, continue after the replacement.  Fuel-indexed (each step
consumes at least one character, so `cs.length` fuel always suffices). -/
def replaceAllGo (pat rep : List Char) : Nat → List Char → List Char
  | _, [] => []
  | 0, cs => cs
  | fuel + 1, c :: rest =>
    if pat <+: (c :: rest) then
      rep ++ replaceAllGo pat rep fuel ((c :: rest).drop pat.length)
    else c :: replaceAllGo pat rep fuel rest

/-- Python `s.replace(pat, rep)` (replace all occurrences). -/
def pyReplace (s pat rep : String) : String :=
  match pat.data with
  | [] => ⟨replaceEmptyPat rep.data s.data⟩
  | _ :: _ => ⟨replaceAllGo pat.data rep.data s.data.length s.data⟩

/-- Modelled from the spec (4.1 `inject`, a core function this repository
variant does not include under `src/`): for every `(key, url)` pair of the
mapping, every literal occurrence of the token `ASSET_URL_<key>` in the text
is replaced by `url` verbatim (one `replace` pass per mapping entry, in
mapping order). -/
def inject (text : String) (mapping : List (String × String)) : String :=
  mapping.foldl (fun t kv => pyReplace t ("ASSET_URL_" ++ kv.1) kv.2) text


/-! ## JSON values, `json.dumps`, and a model of `json.loads`

Numbers are modelled as integers: the loader rejects fraction/exponent
forms (and `NaN`/`Infinity`), which Python would decode as `float` —
floating point is outside the embedding.  `\uXXXX` escapes denoting lone
surrogates, which Python keeps as unpaired code units, are rejected since
Lean `Char` carries only Unicode scalar values. -/

/-- The literal `{` character. -/
def lbrace : Char := Char.ofNat 123

/-- The literal `}` character. -/
def rbrace : Char := Char.ofNat 125

mutual
/-- A JSON value as Python's `json` module represents it (numbers
restricted to integers; object members in insertion order). -/
inductive JVal where
  | jnull
  | jbool (b : Bool)
  | jint (n : Int)
  | jstr (s : String)
  | jarr (elems : JArr)
  | jobj (members : JObj)

/-- JSON array elements. -/
inductive JArr where
  | nil
  | cons (hd : JVal) (tl : JArr)

/-- JSON object members, ordered. -/
inductive JObj where
  | nil
  | cons (k : String) (v : JVal) (tl : JObj)
end

mutual
/-- `json.dumps` of a value, as characters (default separators `", "` and
`": "`, `ensure_ascii=True`). -/
def dumpJ : JVal → List Char
  | .jnull => ['n', 'u', 'l', 'l']
  | .jbool true => ['t', 'r', 'u', 'e']
  | .jbool false => ['f', 'a', 'l', 's', 'e']
  | .jint n => intChars n
  | .jstr s => jsonQuoteChars s.data
  | .jarr .nil => ['[', ']']
  | .jarr (.cons x xs) => '[' :: (dumpJ x ++ dumpArrTail xs)
  | .jobj .nil => [lbrace, rbrace]
  | .jobj (.cons k v ms) =>
    lbrace :: (jsonQuoteChars k.data ++ ':' :: ' ' :: (dumpJ v ++ dumpObjTail ms))

/-- The remaining elements of a dumped array, starting at the separator. -/
def dumpArrTail : JArr → List Char
  | .nil => [']']
  | .cons x xs => ',' :: ' ' :: (dumpJ x ++ dumpArrTail xs)

/-- The remaining members of a dumped object, starting at the separator. -/
def dumpObjTail : JObj → List Char
  | .nil => [rbrace]
  | .cons k v ms => ',' :: ' ' :: (jsonQuoteChars k.data ++ ':' :: ' ' :: (dumpJ v ++ dumpObjTail ms))
end

/-- `json.dumps` of a value, as a string. -/
def jsonDumps (v : JVal) : String := ⟨dumpJ v⟩

mutual
/-- Number of parser steps needed for a value (fuel accounting). -/
def sizeJ : JVal → Nat
  | .jarr l => 1 + sizeArr l
  | .jobj m => 1 + sizeObj m
  | _ => 1

def sizeArr : JArr → Nat
  | .nil => 0
  | .cons x xs => 1 + sizeJ x + sizeArr xs

def sizeObj : JObj → Nat
  | .nil => 0
  | .cons _ v ms => 1 + sizeJ v + sizeObj ms
end

/-- Does the object carry the key? -/
def hasKey : JObj → String → Bool
  | .nil, _ => false
  | .cons k0 _ ms, k => k0 == k || hasKey ms k

/-- All member keys distinct (a Python `dict` can carry each key once). -/
def noDupKeys : JObj → Bool
  | .nil => true
  | .cons k _ ms => !(hasKey ms k) && noDupKeys ms

mutual
/-- Well-formed: every object level has distinct keys. -/
def wfJ : JVal → Bool
  | .jarr l => wfArr l
  | .jobj m => noDupKeys m && wfObj m
  | _ => true

def wfArr : JArr → Bool
  | .nil => true
  | .cons x xs => wfJ x && wfArr xs

def wfObj : JObj → Bool
  | .nil => true
  | .cons _ v ms => wfJ v && wfObj ms
end

/-- `d[k] = v` on an insertion-ordered dict: update in place or append. -/
def pyDictSet : JObj → String → JVal → JObj
  | .nil, k, v => .cons k v .nil
  | .cons k0 v0 ms, k, v =>
    if k0 = k then .cons k0 v ms else .cons k0 v0 (pyDictSet ms k v)

/-- Insert parsed pairs, in order, into an accumulating dict. -/
def pyDictBuild : JObj → JObj → JObj
  | acc, .nil => acc
  | acc, .cons k v ms => pyDictBuild (pyDictSet acc k v) ms

/-- The Python dict built from parsed object pairs (last value wins,
first position kept), as the `json` scanner does. -/
def mkPyDict (ms : JObj) : JObj := pyDictBuild .nil ms

/-- JObj concatenation (specification helper). -/
def objApp : JObj → JObj → JObj
  | .nil, t => t
  | .cons k v ms, t => .cons k v (objApp ms t)

/-- JSON whitespace (`json.decoder` skips only space, tab, newline, CR). -/
def jsonWs (c : Char) : Bool := c == ' ' || c == '\t' || c == '\n' || c == '\r'

/-- Skip JSON whitespace. -/
def skipWs (cs : List Char) : List Char := cs.dropWhile jsonWs

/-- The named escapes of the JSON grammar (`json.decoder.BACKSLASH`). -/
def escCharOf (e : Char) : Option Char :=
  if e = '"' then some '"'
  else if e = '\\' then some '\\'
  else if e = '/' then some '/'
  else if e = 'b' then some (Char.ofNat 8)
  else if e = 'f' then some (Char.ofNat 12)
  else if e = 'n' then some (Char.ofNat 10)
  else if e = 'r' then some (Char.ofNat 13)
  else if e = 't' then some (Char.ofNat 9)
  else none

/-- Hexadecimal digit value (both cases accepted, as `int(s, 16)`). -/
def hexVal (c : Char) : Option Nat :=
  if '0' ≤ c ∧ c ≤ '9' then some (c.toNat - 48)
  else if 'a' ≤ c ∧ c ≤ 'f' then some (c.toNat - 87)
  else if 'A' ≤ c ∧ c ≤ 'F' then some (c.toNat - 55)
  else none

/-- Four hex digits. -/
def hex4 (a b c d : Char) : Option Nat :=
  match hexVal a, hexVal b, hexVal c, hexVal d with
  | some va, some vb, some vc, some vd => some (va * 4096 + vb * 256 + vc * 16 + vd)
  | _, _, _, _ => none

/-- JSON string body parser (after the opening quote), strict mode: raw
control characters are rejected, escapes decoded, surrogate pairs
combined.  Fuel-indexed; each step consumes at least one character. -/
def parseStrChars : Nat → List Char → Option (List Char × List Char)
  | 0, _ => none
  | _ + 1, [] => none
  | fuel + 1, c :: rest =>
    if c = '"' then some ([], rest)
    else if c = '\\' then
      match rest with
      | [] => none
      | e :: rest2 =>
        if e = 'u' then
          match rest2 with
          | a :: b :: c3 :: d :: rest3 =>
            match hex4 a b c3 d with
            | some h =>
              if 0xd800 ≤ h ∧ h ≤ 0xdbff then
                match rest3 with
                | e2 :: u2 :: a2 :: b2 :: c4 :: d2 :: rest4 =>
                  if e2 = '\\' ∧ u2 = 'u' then
                    match hex4 a2 b2 c4 d2 with
                    | some l2 =>
                      if 0xdc00 ≤ l2 ∧ l2 ≤ 0xdfff then
                        match parseStrChars fuel rest4 with
                        | some (out, r) =>
                          some (Char.ofNat (0x10000 + (h - 0xd800) * 0x400 + (l2 - 0xdc00)) :: out, r)
                        | none => none
                      else none
                    | none => none
                  else none
                | _ => none
              else if 0xdc00 ≤ h ∧ h ≤ 0xdfff then none
              else
                match parseStrChars fuel rest3 with
                | some (out, r) => some (Char.ofNat h :: out, r)
                | none => none
            | none => none
          | _ => none
        else
          match escCharOf e with
          | some ch =>
            match parseStrChars fuel rest2 with
            | some (out, r) => some (ch :: out, r)
            | none => none
          | none => none
    else if c.toNat < 32 then none
    else
      match parseStrChars fuel rest with
      | some (out, r) => some (c :: out, r)
      | none => none

/-- Decimal digit run to a number (big-endian fold). -/
def digitsToNat (ds : List Char) : Nat := ds.foldl (fun a c => a * 10 + (c.toNat - 48)) 0

/-- Does a fraction part (`.` then a digit) follow, per `NUMBER_RE`? -/
def fracFollows : List Char → Bool
  | [] => false
  | c :: rest =>
    c == '.' && (match rest with | [] => false | d :: _ => d.isDigit)

/-- Does an exponent part (`[eE][+-]?digit`) follow, per `NUMBER_RE`? -/
def expFollows : List Char → Bool
  | [] => false
  | c :: rest =>
    (c == 'e' || c == 'E') &&
      (match rest with
       | [] => false
       | d :: rest2 =>
         if d = '+' ∨ d = '-' then (match rest2 with | [] => false | e2 :: _ => e2.isDigit)
         else d.isDigit)

/-- After the integer part: a following fraction or exponent makes the
number a Python `float` (outside the model, so rejected); otherwise the
integer ends here, exactly where `NUMBER_RE` stops. -/
def floatGuard (n : Nat) (rest : List Char) : Option (Nat × List Char) :=
  if fracFollows rest || expFollows rest then none else some (n, rest)

/-- Unsigned integer part: `0` alone, or a nonzero digit then a greedy
digit run (`0|[1-9]\d*`). -/
def parseUNumber : List Char → Option (Nat × List Char)
  | [] => none
  | c :: rest =>
    if c = '0' then floatGuard 0 rest
    else if c.isDigit then
      floatGuard (digitsToNat ((c :: rest).takeWhile (fun d => d.isDigit)))
        ((c :: rest).dropWhile (fun d => d.isDigit))
    else none

/-- A JSON number, restricted to the integer forms. -/
def parseNumber : List Char → Option (Int × List Char)
  | [] => none
  | c :: rest =>
    if c = '-' then
      match parseUNumber rest with
      | some (n, r) => some (-(n : Int), r)
      | none => none
    else
      match parseUNumber (c :: rest) with
      | some (n, r) => some ((n : Int), r)
      | none => none

/-- Expect the given literal characters. -/
def expectChars : List Char → List Char → Option (List Char)
  | [], cs => some cs
  | _ :: _, [] => none
  | e :: es, c :: cs => if c = e then expectChars es cs else none

mutual
/-- The JSON value scanner (`json.scanner.py_make_scanner` dispatch):
string, object, array, the three literals, then a number.  Fuel decreases
on every mutual call; `length + 1` fuel always suffices because every
recursion consumes input. -/
def parseValue : Nat → List Char → Option (JVal × List Char)
  | 0, _ => none
  | fuel + 1, cs =>
    match skipWs cs with
    | [] => none
    | c :: rest =>
      if c = '"' then
        match parseStrChars rest.length rest with
        | some (out, r) => some (.jstr ⟨out⟩, r)
        | none => none
      else if c = lbrace then
        match skipWs rest with
        | [] => none
        | c2 :: r2 =>
          if c2 = rbrace then some (.jobj .nil, r2)
          else
            match parseMembers fuel (c2 :: r2) with
            | some (ms, r) => some (.jobj (mkPyDict ms), r)
            | none => none
      else if c = '[' then
        match skipWs rest with
        | [] => none
        | c2 :: r2 =>
          if c2 = ']' then some (.jarr .nil, r2)
          else
            match parseElems fuel (c2 :: r2) with
            | some (l, r) => some (.jarr l, r)
            | none => none
      else if c = 't' then
        match expectChars ['r', 'u', 'e'] rest with
        | some r => some (.jbool true, r)
        | none => none
      else if c = 'f' then
        match expectChars ['a', 'l', 's', 'e'] rest with
        | some r => some (.jbool false, r)
        | none => none
      else if c = 'n' then
        match expectChars ['u', 'l', 'l'] rest with
        | some r => some (.jnull, r)
        | none => none
      else if c = '-' ∨ c.isDigit then
        match parseNumber (c :: rest) with
        | some (n, r) => some (.jint n, r)
        | none => none
      else none

/-- Array elements after `[` (first element known present). -/
def parseElems : Nat → List Char → Option (JArr × List Char)
  | 0, _ => none
  | fuel + 1, cs =>
    match parseValue fuel cs with
    | some (v, r) =>
      match skipWs r with
      | [] => none
      | c2 :: r2 =>
        if c2 = ']' then some (.cons v .nil, r2)
        else if c2 = ',' then
          match parseElems fuel r2 with
          | some (l, r3) => some (.cons v l, r3)
          | none => none
        else none
    | none => none

/-- Object members after `{` (first member known present; the input starts
at the opening quote of the key). -/
def parseMembers : Nat → List Char → Option (JObj × List Char)
  | 0, _ => none
  | fuel + 1, cs =>
    match cs with
    | [] => none
    | c :: rest =>
      if c = '"' then
        match parseStrChars rest.length rest with
        | some (k, r) =>
          match skipWs r with
          | [] => none
          | c3 :: r3 =>
            if c3 = ':' then
              match parseValue fuel r3 with
              | some (v, r4) =>
                match skipWs r4 with
                | [] => none
                | c5 :: r5 =>
                  if c5 = rbrace then some (.cons ⟨k⟩ v .nil, r5)
                  else if c5 = ',' then
                    match parseMembers fuel (skipWs r5) with
                    | some (ms, r6) => some (.cons ⟨k⟩ v ms, r6)
                    | none => none
                  else none
              | none => none
            else none
        | none => none
      else none
end

/-- Model of Python `json.loads`: parse one value, then require only
whitespace to remain. -/
def jsonLoads (s : String) : Option JVal :=
  match parseValue (s.data.length + 1) s.data with
  | some (v, rest) => if skipWs rest = [] then some v else none
  | none => none

/-- `re.search(r"\x7b.*\x7d", text, flags=re.S)` of `try_parse_json`: the
pattern is one `{`, a greedy dot-all body, one `}`; the leftmost match with
the longest extension runs from the first `{` in the text to the last `}`,
and exists iff some `}` follows some `{`.  Equivalently: drop up to the
first `{`, then drop back to the last `}`; the span is nonempty iff the
regex matches, and then contains that whole bracketed stretch. -/
def extractBraceSpan (cs : List Char) : Option (List Char) :=
  let r := cs.dropWhile (fun c => !(c == lbrace))
  let r2 := (r.reverse.dropWhile (fun c => !(c == rbrace))).reverse
  if r2.isEmpty then none else some r2

/-- `src/app.py` 341–347 `try_parse_json(text)`: extract the brace span and
decode it; on failure (or no span) decode the whole text; `none` where the
Python function returns `None`. -/
def try_parse_json (s : String) : Option JVal :=
  match extractBraceSpan s.data with
  | some span =>
    match jsonLoads ⟨span⟩ with
    | some v => some v
    | none => jsonLoads s
  | none => jsonLoads s


/-- A continuation on which an integer ends exactly at the dumped digits:
empty, or starting with a separator or closer (`,`, `]`, `}`). -/
def numSafeRest : List Char → Prop
  | [] => True
  | c :: _ => c.toNat = 44 ∨ c.toNat = 93 ∨ c.toNat = 125

/-- No brace character (`{` or `}`) occurs in the string: the condition under
which surrounding prose cannot disturb the regex-extracted span. -/
def braceFree (t : String) : Bool :=
  t.data.all (fun c => !(c == lbrace) && !(c == rbrace))

/-! ## Theorems: substring-occurrence toolkit -/

set_option maxRecDepth 100000

theorem occursIn_append_left {p a : String} (h : occursIn p a) (b : String) :
    occursIn p (a ++ b) := by
  obtain ⟨s, t, hst⟩ := h
  exact ⟨s, t ++ b.data, by rw [String.data_append, ← hst]; simp [List.append_assoc]⟩

theorem occursIn_append_right {p b : String} (a : String) (h : occursIn p b) :
    occursIn p (a ++ b) := by
  obtain ⟨s, t, hst⟩ := h
  exact ⟨a.data ++ s, t, by rw [String.data_append, ← hst]; simp [List.append_assoc]⟩

theorem occursIn_congr {p p' : String} (s : String) (h : p = p') (h2 : occursIn p' s) :
    occursIn p s := h ▸ h2

/-- If `p` ends `l` and `q` begins `r`, then `p ++ m ++ q` occurs in `l ++ m ++ r`
for any middle string `m`. -/
theorem occursIn_wrap {p q l r : String} (m : String)
    (h1 : p.data <:+ l.data) (h2 : q.data <+: r.data) :
    occursIn (p ++ m ++ q) (l ++ m ++ r) := by
  obtain ⟨s, hs⟩ := h1
  obtain ⟨t, ht⟩ := h2
  refine ⟨s, t, ?_⟩
  simp only [String.data_append]
  rw [← hs, ← ht]
  simp [List.append_assoc]

theorem strSuffixAppend {p b : String} (a : String) (h : p.data <:+ b.data) :
    p.data <:+ (a ++ b).data := by
  obtain ⟨s, hs⟩ := h
  exact ⟨a.data ++ s, by rw [String.data_append, ← hs]; simp [List.append_assoc]⟩

theorem strPrefixAppend {q a : String} (b : String) (h : q.data <+: a.data) :
    q.data <+: (a ++ b).data := by
  obtain ⟨t, ht⟩ := h
  exact ⟨t ++ b.data, by rw [String.data_append, ← ht]; simp [List.append_assoc]⟩

/-! ## Theorems: `_seq_to_list` -/

theorem splitCommaAux_allWs {cs acc : List Char}
    (hcs : ∀ c ∈ cs, c = ',' ∨ pythonIsSpace c = true)
    (hacc : ∀ c ∈ acc, pythonIsSpace c = true) :
    ∀ part ∈ splitCommaAux cs acc, ∀ c ∈ part, pythonIsSpace c = true := by
  induction cs generalizing acc with
  | nil =>
    intro part hp c hc
    simp only [splitCommaAux, List.mem_singleton] at hp
    subst hp
    rw [List.mem_reverse] at hc
    exact hacc c hc
  | cons a rest ih =>
    intro part hp
    by_cases ha : a = ','
    · rw [splitCommaAux, if_pos ha] at hp
      rcases List.mem_cons.mp hp with h | h
      · subst h
        intro c hc
        rw [List.mem_reverse] at hc
        exact hacc c hc
      · exact ih (fun c hc => hcs c (List.mem_cons_of_mem a hc)) (by simp) part h
    · rw [splitCommaAux, if_neg ha] at hp
      have haws : pythonIsSpace a = true := by
        rcases hcs a (List.mem_cons_self a rest) with h | h
        · exact absurd h ha
        · exact h
      refine ih (fun c hc => hcs c (List.mem_cons_of_mem a hc)) ?_ part hp
      intro c hc
      rcases List.mem_cons.mp hc with h | h
      · subst h; exact haws
      · exact hacc c h

theorem seq_to_list_nil_of_commaWsOnly {s : String} (h : commaWsOnly s) :
    _seq_to_list s = [] := by
  unfold _seq_to_list
  rw [List.filter_eq_nil_iff]
  intro a ha
  rw [List.mem_map] at ha
  obtain ⟨part, hpart, rfl⟩ := ha
  have hws : ∀ c ∈ part, pythonIsSpace c = true :=
    splitCommaAux_allWs h (by simp) part hpart
  have hnil : pyStripChars pythonIsSpace part = [] := by
    unfold pyStripChars
    rw [List.dropWhile_eq_nil_iff.mpr hws]
    rfl
  rw [hnil]
  decide

theorem dropWhile_idem (p : Char → Bool) (l : List Char) :
    (l.dropWhile p).dropWhile p = l.dropWhile p := by
  induction l with
  | nil => rfl
  | cons a l ih => by_cases h : p a <;> simp [List.dropWhile_cons, h, ih]

theorem dropWhile_eq_self_of_prefix {p : Char → Bool} {r d : List Char}
    (hrd : r <+: d) (hd : d.dropWhile p = d) : r.dropWhile p = r := by
  cases r with
  | nil => rfl
  | cons a r' =>
    obtain ⟨t, rfl⟩ := hrd
    rw [List.cons_append, List.dropWhile_cons] at hd
    rw [List.dropWhile_cons]
    by_cases h : p a
    · exfalso
      rw [if_pos h] at hd
      have hlen := congrArg List.length hd
      have hle := (List.dropWhile_sublist (l := r' ++ t) p).length_le
      rw [List.length_cons] at hlen
      omega
    · rw [if_neg h]

theorem pyStripChars_idem (sel : Char → Bool) (cs : List Char) :
    pyStripChars sel (pyStripChars sel cs) = pyStripChars sel cs := by
  have hpre : pyStripChars sel cs <+: cs.dropWhile sel := by
    have h := List.dropWhile_suffix (l := (cs.dropWhile sel).reverse) sel
    have h2 := List.reverse_prefix.mpr h
    rwa [List.reverse_reverse] at h2
  have h1 : (pyStripChars sel cs).dropWhile sel = pyStripChars sel cs :=
    dropWhile_eq_self_of_prefix hpre (dropWhile_idem sel cs)
  have h2 : ((pyStripChars sel cs).reverse).dropWhile sel = (pyStripChars sel cs).reverse := by
    unfold pyStripChars
    rw [List.reverse_reverse]
    exact dropWhile_idem sel _
  set r := pyStripChars sel cs with hr
  unfold pyStripChars
  rw [h1, h2, List.reverse_reverse]

/-- C8: `_seq_to_list` splits on commas, strips Python whitespace from each
item and drops empty items: each returned element is nonempty and invariant
under a further `strip()`, and a string made only of commas and whitespace
(including the empty string) yields the empty list. -/
theorem seq_to_list_items_trimmed (s : String) :
    (∀ x ∈ _seq_to_list s, x ≠ "" ∧ pyStrip x = x) ∧
    (commaWsOnly s → _seq_to_list s = []) := by
  constructor
  · intro x hx
    unfold _seq_to_list at hx
    rw [List.mem_filter] at hx
    obtain ⟨hmem, hne⟩ := hx
    rw [List.mem_map] at hmem
    obtain ⟨part, _, rfl⟩ := hmem
    refine ⟨?_, ?_⟩
    · intro h0
      rw [h0] at hne
      simp at hne
    · show pyStrip ⟨pyStripChars pythonIsSpace part⟩ = ⟨pyStripChars pythonIsSpace part⟩
      unfold pyStrip
      exact congrArg String.mk (pyStripChars_idem _ _)
  · exact seq_to_list_nil_of_commaWsOnly

theorem seq_to_list_items_trimmed_witness :
    ("K" ∈ _seq_to_list "K, Q" → "K" ≠ "") ∧ commaWsOnly " ,," ∧ _seq_to_list " ,," = [] :=
  ⟨fun h => ((seq_to_list_items_trimmed "K, Q").1 "K" h).1, by decide,
    (seq_to_list_items_trimmed " ,,").2 (by decide)⟩

/-! ## Theorems: `build_phaser_html` output shape -/

/-- C1: for every `GameConfig`, the document produced by `build_phaser_html`
contains both `<html>` and `</html>` somewhere in the text, so it classifies
as a full document under the spec's heuristic classifier `is_full_document`. -/
theorem build_phaser_html_full_document (cfg : GameConfig) :
    occursIn "<html>" (build_phaser_html cfg) ∧ occursIn "</html>" (build_phaser_html cfg) ∧
    is_full_document (build_phaser_html cfg) = true := by
  have h1 : occursIn "<html>" (build_phaser_html cfg) := by
    unfold build_phaser_html
    iterate 27 apply occursIn_append_left
    decide
  have h2 : occursIn "</html>" (build_phaser_html cfg) := by
    unfold build_phaser_html
    apply occursIn_append_right
    decide
  refine ⟨h1, h2, ?_⟩
  have l1 := List.IsInfix.map Char.toLower h1
  have l2 := List.IsInfix.map Char.toLower h2
  unfold is_full_document
  rw [Bool.and_eq_true, decide_eq_true_eq, decide_eq_true_eq]
  constructor
  · rw [show "<html>".data = "<html>".data.map Char.toLower from by decide]
    exact l1
  · rw [show "</html>".data = "</html>".data.map Char.toLower from by decide]
    exact l2

/-- C2: the generated document embeds the configuration verbatim: the title
between `<title>`/`</title>`, the pixel width and height as the `canvas_w` /
`canvas_h` entries of the serialised config (which the scaffold reads as
`width: W, height: H` via `const W = CFG.canvas_w, H = CFG.canvas_h`), and
the background colour both in the page CSS (`background:...;`) and as the
Phaser `backgroundColor`. -/
theorem build_phaser_html_embeds_config (cfg : GameConfig) :
    occursIn ("<title>" ++ cfg.title ++ "</title>") (build_phaser_html cfg) ∧
    occursIn ("\"canvas_w\": " ++ intRepr cfg.canvas_w ++ ",") (build_phaser_html cfg) ∧
    occursIn ("\"canvas_h\": " ++ intRepr cfg.canvas_h ++ ",") (build_phaser_html cfg) ∧
    occursIn ("background:" ++ cfg.theme_color_bg ++ ";") (build_phaser_html cfg) ∧
    occursIn ("backgroundColor: \"" ++ cfg.theme_color_bg ++ "\"") (build_phaser_html cfg) := by
  refine ⟨?_, ?_, ?_, ?_, ?_⟩
  · unfold build_phaser_html
    iterate 25 apply occursIn_append_left
    exact occursIn_wrap cfg.title (by decide) (by decide)
  · unfold build_phaser_html
    iterate 18 apply occursIn_append_left
    apply occursIn_append_right
    unfold jsonDumpsConfig
    iterate 30 apply occursIn_append_left
    refine occursIn_wrap (intRepr cfg.canvas_w) ?_ ?_
    · exact strSuffixAppend _ (by decide)
    · decide
  · unfold build_phaser_html
    iterate 18 apply occursIn_append_left
    apply occursIn_append_right
    unfold jsonDumpsConfig
    iterate 28 apply occursIn_append_left
    refine occursIn_wrap (intRepr cfg.canvas_h) ?_ ?_
    · exact strSuffixAppend _ (by decide)
    · decide
  · unfold build_phaser_html
    iterate 23 apply occursIn_append_left
    refine occursIn_wrap cfg.theme_color_bg ?_ ?_
    · exact strSuffixAppend _ (by decide)
    · decide
  · unfold build_phaser_html
    apply occursIn_append_left
    refine occursIn_wrap cfg.theme_color_bg ?_ ?_
    · exact strSuffixAppend _ (by decide)
    · unfold tpl13
      iterate 15 apply strPrefixAppend
      decide

/-- C3: `build_phaser_html` is a total function of the configuration — for
every well-typed `GameConfig` it returns a document string (no exception is
modelled anywhere on this path) — and empty or whitespace-only stage
sequences yield empty stage lists, which are rendered as `[]` in the
document, which still contains the full scaffold. -/
theorem build_phaser_html_total_empty_stages (cfg : GameConfig)
    (h1 : commaWsOnly cfg.stage1_sequence) (h2 : commaWsOnly cfg.stage2_sequence) :
    _seq_to_list cfg.stage1_sequence = [] ∧ _seq_to_list cfg.stage2_sequence = [] ∧
    occursIn "const STAGE1 = [];" (build_phaser_html cfg) ∧
    occursIn "const STAGE2 = [];" (build_phaser_html cfg) ∧
    occursIn "<html>" (build_phaser_html cfg) := by
  have hs1 := seq_to_list_nil_of_commaWsOnly h1
  have hs2 := seq_to_list_nil_of_commaWsOnly h2
  have he : jsonDumpsStrList [] = "[]" := by decide
  refine ⟨hs1, hs2, ?_, ?_, ?_⟩
  · unfold build_phaser_html
    rw [hs1, he]
    refine occursIn_congr _
      (show ("const STAGE1 = [];" : String) = "const STAGE1 = " ++ "[]" ++ ";" from by decide) ?_
    iterate 15 apply occursIn_append_left
    refine occursIn_wrap "[]" ?_ ?_
    · exact strSuffixAppend _ (by decide)
    · decide
  · unfold build_phaser_html
    rw [hs2, he]
    refine occursIn_congr _
      (show ("const STAGE2 = [];" : String) = "const STAGE2 = " ++ "[]" ++ ";" from by decide) ?_
    iterate 13 apply occursIn_append_left
    refine occursIn_wrap "[]" ?_ ?_
    · exact strSuffixAppend _ (by decide)
    · decide
  · unfold build_phaser_html
    iterate 27 apply occursIn_append_left
    decide

theorem build_phaser_html_total_empty_stages_witness :
    commaWsOnly emptyStagesConfig.stage1_sequence ∧
    _seq_to_list emptyStagesConfig.stage1_sequence = [] ∧
    occursIn "const STAGE1 = [];" (build_phaser_html emptyStagesConfig) :=
  ⟨by decide,
   (build_phaser_html_total_empty_stages emptyStagesConfig (by decide) (by decide)).1,
   (build_phaser_html_total_empty_stages emptyStagesConfig (by decide) (by decide)).2.2.1⟩

/-- C6: `build_phaser_html` is deterministic and pure — it is embedded as a
plain function of the `GameConfig` value alone (no other state exists on
this path in the source: the function reads only `cfg` and local values and
performs no I/O), so equal configurations give identical output strings. -/
theorem build_phaser_html_deterministic (cfg cfg' : GameConfig) (h : cfg = cfg') :
    build_phaser_html cfg = build_phaser_html cfg' :=
  congrArg build_phaser_html h

theorem build_phaser_html_deterministic_witness :
    defaultGameConfig = defaultGameConfig ∧
    build_phaser_html defaultGameConfig = build_phaser_html defaultGameConfig :=
  ⟨rfl, build_phaser_html_deterministic defaultGameConfig defaultGameConfig rfl⟩

/-! ## Theorems: `apply_design_to_config` -/

theorem exceptBind_ok {ε α β : Type} {x : Except ε α} {f : α → Except ε β} {c : β} :
    x.bind f = .ok c ↔ ∃ a, x = .ok a ∧ f a = .ok c := by
  cases x <;> simp [Except.bind]

theorem designGetStr_ok {data : Design} {k old t : String}
    (h : designGetStr data k old = .ok t) : t = strResult (data k) old := by
  unfold designGetStr designGet at h
  unfold strResult
  cases hv : data k with
  | none => rw [hv] at h; simp_all
  | some v =>
    rw [hv] at h
    cases v with
    | pyNone => simp_all
    | pyInt n => simp_all
    | pyStr s => by_cases hs : s = "" <;> simp_all

theorem designGetInt_ok {data : Design} {k : String} {old n : Int}
    (h : designGetInt data k old = .ok n) : n = intResult (data k) old := by
  unfold designGetInt designGet pyToInt at h
  unfold intResult
  cases hv : data k with
  | none => rw [hv] at h; simp_all
  | some v =>
    rw [hv] at h
    cases v with
    | pyNone => simp_all
    | pyInt m => simp_all
    | pyStr s =>
      by_cases hs : s = ""
      · simp_all
      · cases hp : pyParseInt s with
        | none => simp_all
        | some m => simp_all

theorem designGetStr_isOk (data : Design) (k old : String)
    (h : strValOk (data k) = true) :
    designGetStr data k old = .ok (strResult (data k) old) := by
  unfold designGetStr designGet strResult
  unfold strValOk at h
  cases hv : data k with
  | none => simp
  | some v =>
    rw [hv] at h
    cases v with
    | pyNone => simp
    | pyInt n => simp_all
    | pyStr s => by_cases hs : s = "" <;> simp_all

theorem designGetInt_isOk (data : Design) (k : String) (old : Int)
    (h : intValOk (data k) = true) :
    designGetInt data k old = .ok (intResult (data k) old) := by
  unfold designGetInt designGet pyToInt
  unfold intResult
  unfold intValOk at h
  cases hv : data k with
  | none => simp
  | some v =>
    rw [hv] at h
    cases v with
    | pyNone => simp
    | pyInt n => simp
    | pyStr s =>
      by_cases hs : s = ""
      · simp_all
      · rw [Bool.or_eq_true, beq_iff_eq] at h
        rcases h with h | h
        · exact absurd h hs
        · obtain ⟨m, hm⟩ := Option.isSome_iff_exists.mp h
          simp_all

theorem apply_design_ok_fields {data : Design} {cfg cfg' : GameConfig}
    (h : apply_design_to_config data cfg = .ok cfg') :
    cfg'.title = strResult (data "title") cfg.title ∧
    cfg'.stage1_sequence = strResult (data "stage1_sequence") cfg.stage1_sequence ∧
    cfg'.stage2_sequence = strResult (data "stage2_sequence") cfg.stage2_sequence ∧
    cfg'.tutorial_delay_ms = intResult (data "tutorial_delay_ms") cfg.tutorial_delay_ms ∧
    cfg'.hand_offset_x = intResult (data "hand_offset_x") cfg.hand_offset_x ∧
    cfg'.hand_offset_y = intResult (data "hand_offset_y") cfg.hand_offset_y ∧
    cfg'.theme_color_bg = strResult (data "theme_color_bg") cfg.theme_color_bg ∧
    cfg'.theme_color_track = strResult (data "theme_color_track") cfg.theme_color_track ∧
    cfg'.theme_color_card = strResult (data "theme_color_card") cfg.theme_color_card ∧
    cfg'.theme_color_card_text = strResult (data "theme_color_card_text") cfg.theme_color_card_text ∧
    cfg'.theme_color_train = strResult (data "theme_color_train") cfg.theme_color_train ∧
    cfg'.theme_color_cta = strResult (data "theme_color_cta") cfg.theme_color_cta ∧
    cfg'.hint_text = strResult (data "hint_text") cfg.hint_text ∧
    cfg'.cta_text = strResult (data "cta_text") cfg.cta_text ∧
    cfg'.cta_url = strResult (data "cta_url") cfg.cta_url ∧
    cfg'.canvas_w = cfg.canvas_w ∧ cfg'.canvas_h = cfg.canvas_h := by
  unfold apply_design_to_config at h
  rw [exceptBind_ok] at h; obtain ⟨x1, h1, h⟩ := h
  rw [exceptBind_ok] at h; obtain ⟨x2, h2, h⟩ := h
  rw [exceptBind_ok] at h; obtain ⟨x3, h3, h⟩ := h
  rw [exceptBind_ok] at h; obtain ⟨x4, h4, h⟩ := h
  rw [exceptBind_ok] at h; obtain ⟨x5, h5, h⟩ := h
  rw [exceptBind_ok] at h; obtain ⟨x6, h6, h⟩ := h
  rw [exceptBind_ok] at h; obtain ⟨x7, h7, h⟩ := h
  rw [exceptBind_ok] at h; obtain ⟨x8, h8, h⟩ := h
  rw [exceptBind_ok] at h; obtain ⟨x9, h9, h⟩ := h
  rw [exceptBind_ok] at h; obtain ⟨x10, h10, h⟩ := h
  rw [exceptBind_ok] at h; obtain ⟨x11, h11, h⟩ := h
  rw [exceptBind_ok] at h; obtain ⟨x12, h12, h⟩ := h
  rw [exceptBind_ok] at h; obtain ⟨x13, h13, h⟩ := h
  rw [exceptBind_ok] at h; obtain ⟨x14, h14, h⟩ := h
  rw [exceptBind_ok] at h; obtain ⟨x15, h15, h⟩ := h
  rw [Except.ok.injEq] at h
  subst h
  exact ⟨designGetStr_ok h1, designGetStr_ok h2, designGetStr_ok h3,
    designGetInt_ok h4, designGetInt_ok h5, designGetInt_ok h6,
    designGetStr_ok h7, designGetStr_ok h8, designGetStr_ok h9,
    designGetStr_ok h10, designGetStr_ok h11, designGetStr_ok h12,
    designGetStr_ok h13, designGetStr_ok h14, designGetStr_ok h15, rfl, rfl⟩

theorem strResult_blank {v : Option PyVal} (old : String)
    (h : v = none ∨ v = some .pyNone ∨ v = some (.pyStr "")) :
    strResult v old = old := by
  rcases h with h | h | h <;> subst h <;> simp [strResult]

theorem strResult_set (old : String) {s : String} (hs : s ≠ "") :
    strResult (some (.pyStr s)) old = s := by
  simp [strResult, hs]

theorem intResult_blank {v : Option PyVal} (old : Int)
    (h : v = none ∨ v = some .pyNone ∨ v = some (.pyStr "")) :
    intResult v old = old := by
  rcases h with h | h | h <;> subst h <;> simp [intResult]

theorem intResult_int (old n : Int) : intResult (some (.pyInt n)) old = n := by
  simp [intResult]

theorem intResult_str (old : Int) {s : String} {n : Int} (hs : s ≠ "")
    (hp : pyParseInt s = some n) : intResult (some (.pyStr s)) old = n := by
  simp [intResult, hs, hp]

/-- C4 counterexample: the claim "apply_design_to_config never raises for any
string value" is false — a malformed integer string for `tutorial_delay_ms`
reaches `int("abc")`, which raises `ValueError` (modelled as `.error`). -/
theorem apply_design_to_config_raises_on_malformed_int :
    apply_design_to_config badDesign defaultGameConfig = .error .valueError := rfl

/-- C4 (amended): `apply_design_to_config` raises no error provided every
value supplied for the three integer keys is an int, `None`, absent, the
empty string, or a string Python `int()` accepts; any string value for the
twelve string keys degrades gracefully (empty/`None` fall back to the
existing configuration value). -/
theorem apply_design_to_config_no_raise (data : Design) (cfg : GameConfig)
    (hstr : ∀ k ∈ strFieldKeys, strValOk (data k) = true)
    (hint : ∀ k ∈ intFieldKeys, intValOk (data k) = true) :
    ∃ cfg', apply_design_to_config data cfg = .ok cfg' := by
  unfold apply_design_to_config
  rw [designGetStr_isOk data "title" cfg.title (hstr _ (by decide)),
    designGetStr_isOk data "stage1_sequence" cfg.stage1_sequence (hstr _ (by decide)),
    designGetStr_isOk data "stage2_sequence" cfg.stage2_sequence (hstr _ (by decide)),
    designGetInt_isOk data "tutorial_delay_ms" cfg.tutorial_delay_ms (hint _ (by decide)),
    designGetInt_isOk data "hand_offset_x" cfg.hand_offset_x (hint _ (by decide)),
    designGetInt_isOk data "hand_offset_y" cfg.hand_offset_y (hint _ (by decide)),
    designGetStr_isOk data "theme_color_bg" cfg.theme_color_bg (hstr _ (by decide)),
    designGetStr_isOk data "theme_color_track" cfg.theme_color_track (hstr _ (by decide)),
    designGetStr_isOk data "theme_color_card" cfg.theme_color_card (hstr _ (by decide)),
    designGetStr_isOk data "theme_color_card_text" cfg.theme_color_card_text (hstr _ (by decide)),
    designGetStr_isOk data "theme_color_train" cfg.theme_color_train (hstr _ (by decide)),
    designGetStr_isOk data "theme_color_cta" cfg.theme_color_cta (hstr _ (by decide)),
    designGetStr_isOk data "hint_text" cfg.hint_text (hstr _ (by decide)),
    designGetStr_isOk data "cta_text" cfg.cta_text (hstr _ (by decide)),
    designGetStr_isOk data "cta_url" cfg.cta_url (hstr _ (by decide))]
  simp only [Except.bind]
  exact ⟨_, rfl⟩

theorem apply_design_to_config_no_raise_witness :
    (∀ k ∈ strFieldKeys, strValOk (goodDesign k) = true) ∧
    (∀ k ∈ intFieldKeys, intValOk (goodDesign k) = true) ∧
    (∃ cfg', apply_design_to_config goodDesign defaultGameConfig = .ok cfg') :=
  ⟨by decide, by decide,
    apply_design_to_config_no_raise goodDesign defaultGameConfig (by decide) (by decide)⟩

/-- C9: on a successful merge, every configuration field whose key is
absent, `None`-valued or empty-string-valued is left unchanged (including
`canvas_w`/`canvas_h`, which the function never touches), and a field is
overwritten exactly when its key carries a present, non-`None`, nonempty
value (integer fields taking `int(value)`). -/
theorem apply_design_to_config_frame (data : Design) (cfg cfg' : GameConfig)
    (h : apply_design_to_config data cfg = .ok cfg') :
    (cfg'.canvas_w = cfg.canvas_w ∧ cfg'.canvas_h = cfg.canvas_h) ∧
    (blankKey data "title" → cfg'.title = cfg.title) ∧
    (∀ s, data "title" = some (.pyStr s) → s ≠ "" → cfg'.title = s) ∧
    (blankKey data "stage1_sequence" → cfg'.stage1_sequence = cfg.stage1_sequence) ∧
    (∀ s, data "stage1_sequence" = some (.pyStr s) → s ≠ "" → cfg'.stage1_sequence = s) ∧
    (blankKey data "stage2_sequence" → cfg'.stage2_sequence = cfg.stage2_sequence) ∧
    (∀ s, data "stage2_sequence" = some (.pyStr s) → s ≠ "" → cfg'.stage2_sequence = s) ∧
    (blankKey data "tutorial_delay_ms" → cfg'.tutorial_delay_ms = cfg.tutorial_delay_ms) ∧
    (∀ n, data "tutorial_delay_ms" = some (.pyInt n) → cfg'.tutorial_delay_ms = n) ∧
    (∀ s n, data "tutorial_delay_ms" = some (.pyStr s) → s ≠ "" → pyParseInt s = some n → cfg'.tutorial_delay_ms = n) ∧
    (blankKey data "hand_offset_x" → cfg'.hand_offset_x = cfg.hand_offset_x) ∧
    (∀ n, data "hand_offset_x" = some (.pyInt n) → cfg'.hand_offset_x = n) ∧
    (∀ s n, data "hand_offset_x" = some (.pyStr s) → s ≠ "" → pyParseInt s = some n → cfg'.hand_offset_x = n) ∧
    (blankKey data "hand_offset_y" → cfg'.hand_offset_y = cfg.hand_offset_y) ∧
    (∀ n, data "hand_offset_y" = some (.pyInt n) → cfg'.hand_offset_y = n) ∧
    (∀ s n, data "hand_offset_y" = some (.pyStr s) → s ≠ "" → pyParseInt s = some n → cfg'.hand_offset_y = n) ∧
    (blankKey data "theme_color_bg" → cfg'.theme_color_bg = cfg.theme_color_bg) ∧
    (∀ s, data "theme_color_bg" = some (.pyStr s) → s ≠ "" → cfg'.theme_color_bg = s) ∧
    (blankKey data "theme_color_track" → cfg'.theme_color_track = cfg.theme_color_track) ∧
    (∀ s, data "theme_color_track" = some (.pyStr s) → s ≠ "" → cfg'.theme_color_track = s) ∧
    (blankKey data "theme_color_card" → cfg'.theme_color_card = cfg.theme_color_card) ∧
    (∀ s, data "theme_color_card" = some (.pyStr s) → s ≠ "" → cfg'.theme_color_card = s) ∧
    (blankKey data "theme_color_card_text" → cfg'.theme_color_card_text = cfg.theme_color_card_text) ∧
    (∀ s, data "theme_color_card_text" = some (.pyStr s) → s ≠ "" → cfg'.theme_color_card_text = s) ∧
    (blankKey data "theme_color_train" → cfg'.theme_color_train = cfg.theme_color_train) ∧
    (∀ s, data "theme_color_train" = some (.pyStr s) → s ≠ "" → cfg'.theme_color_train = s) ∧
    (blankKey data "theme_color_cta" → cfg'.theme_color_cta = cfg.theme_color_cta) ∧
    (∀ s, data "theme_color_cta" = some (.pyStr s) → s ≠ "" → cfg'.theme_color_cta = s) ∧
    (blankKey data "hint_text" → cfg'.hint_text = cfg.hint_text) ∧
    (∀ s, data "hint_text" = some (.pyStr s) → s ≠ "" → cfg'.hint_text = s) ∧
    (blankKey data "cta_text" → cfg'.cta_text = cfg.cta_text) ∧
    (∀ s, data "cta_text" = some (.pyStr s) → s ≠ "" → cfg'.cta_text = s) ∧
    (blankKey data "cta_url" → cfg'.cta_url = cfg.cta_url) ∧
    (∀ s, data "cta_url" = some (.pyStr s) → s ≠ "" → cfg'.cta_url = s) := by
  obtain ⟨m1, m2, m3, m4, m5, m6, m7, m8, m9, m10, m11, m12, m13, m14, m15, mw, mh⟩ :=
    apply_design_ok_fields h
  exact ⟨⟨mw, mh⟩,
    fun hb => m1.trans (strResult_blank _ hb),
    fun s hs hne => by rw [m1, hs]; exact strResult_set _ hne,
    fun hb => m2.trans (strResult_blank _ hb),
    fun s hs hne => by rw [m2, hs]; exact strResult_set _ hne,
    fun hb => m3.trans (strResult_blank _ hb),
    fun s hs hne => by rw [m3, hs]; exact strResult_set _ hne,
    fun hb => m4.trans (intResult_blank _ hb),
    fun n hn => by rw [m4, hn]; exact intResult_int _ n,
    fun s n hs hne hp => by rw [m4, hs]; exact intResult_str _ hne hp,
    fun hb => m5.trans (intResult_blank _ hb),
    fun n hn => by rw [m5, hn]; exact intResult_int _ n,
    fun s n hs hne hp => by rw [m5, hs]; exact intResult_str _ hne hp,
    fun hb => m6.trans (intResult_blank _ hb),
    fun n hn => by rw [m6, hn]; exact intResult_int _ n,
    fun s n hs hne hp => by rw [m6, hs]; exact intResult_str _ hne hp,
    fun hb => m7.trans (strResult_blank _ hb),
    fun s hs hne => by rw [m7, hs]; exact strResult_set _ hne,
    fun hb => m8.trans (strResult_blank _ hb),
    fun s hs hne => by rw [m8, hs]; exact strResult_set _ hne,
    fun hb => m9.trans (strResult_blank _ hb),
    fun s hs hne => by rw [m9, hs]; exact strResult_set _ hne,
    fun hb => m10.trans (strResult_blank _ hb),
    fun s hs hne => by rw [m10, hs]; exact strResult_set _ hne,
    fun hb => m11.trans (strResult_blank _ hb),
    fun s hs hne => by rw [m11, hs]; exact strResult_set _ hne,
    fun hb => m12.trans (strResult_blank _ hb),
    fun s hs hne => by rw [m12, hs]; exact strResult_set _ hne,
    fun hb => m13.trans (strResult_blank _ hb),
    fun s hs hne => by rw [m13, hs]; exact strResult_set _ hne,
    fun hb => m14.trans (strResult_blank _ hb),
    fun s hs hne => by rw [m14, hs]; exact strResult_set _ hne,
    fun hb => m15.trans (strResult_blank _ hb),
    fun s hs hne => by rw [m15, hs]; exact strResult_set _ hne⟩

theorem apply_design_to_config_frame_witness :
    apply_design_to_config titleOnlyDesign defaultGameConfig =
      .ok { defaultGameConfig with title := "New Title" } ∧
    ({ defaultGameConfig with title := "New Title" } : GameConfig).hint_text =
      defaultGameConfig.hint_text ∧
    ({ defaultGameConfig with title := "New Title" } : GameConfig).title = "New Title" := by
  have hok : apply_design_to_config titleOnlyDesign defaultGameConfig =
      .ok { defaultGameConfig with title := "New Title" } := rfl
  have h := apply_design_to_config_frame titleOnlyDesign defaultGameConfig
    { defaultGameConfig with title := "New Title" } hok
  exact ⟨hok, h.2.2.2.2.2.2.2.2.2.2.2.2.2.2.2.2.2.2.2.2.2.2.2.2.2.2.2.2.1 (by decide),
    h.2.2.1 "New Title" (by decide) (by decide)⟩

/-! ## Theorems: `inject` -/

theorem replaceAllGo_id {pat rep : List Char} :
    ∀ (fuel : Nat) (cs : List Char), ¬ pat <:+: cs → cs.length ≤ fuel →
      replaceAllGo pat rep fuel cs = cs := by
  intro fuel
  induction fuel with
  | zero =>
    intro cs _ hl
    rw [Nat.le_zero, List.length_eq_zero] at hl
    subst hl
    rfl
  | succ fuel ih =>
    intro cs h hl
    cases cs with
    | nil => rfl
    | cons c rest =>
      have hpre : ¬ pat <+: (c :: rest) := fun hp => h hp.isInfix
      rw [replaceAllGo, if_neg hpre]
      have hrest : ¬ pat <:+: rest := fun hi => h (List.infix_cons hi)
      rw [ih rest hrest (by rw [List.length_cons] at hl; omega)]

theorem pyReplace_of_not_occurs {t pat rep : String} (hne : pat.data ≠ [])
    (h : ¬ occursIn pat t) : pyReplace t pat rep = t := by
  unfold pyReplace
  split
  · simp_all
  · exact congrArg String.mk (replaceAllGo_id t.data.length t.data h (Nat.le_refl _))

/-- C7: `inject` with an empty mapping is the identity on every text, and a
mapping entry whose token does not occur in the text leaves the text
unchanged (no error in either direction — the model is total, as the spec
requires, and tokens lacking a mapping entry are simply never touched). -/
theorem inject_empty_identity (t : String) :
    inject t [] = t ∧
    (∀ k u : String, ¬ occursIn ("ASSET_URL_" ++ k) t → inject t [(k, u)] = t) := by
  constructor
  · rfl
  · intro k u h
    show pyReplace t ("ASSET_URL_" ++ k) u = t
    apply pyReplace_of_not_occurs _ h
    rw [String.data_append]
    intro hh
    exact absurd (List.append_eq_nil.mp hh).1 (by decide)

theorem inject_empty_identity_witness :
    inject "hello world" [] = "hello world" ∧
    ¬ occursIn ("ASSET_URL_" ++ "bg") "hello world" ∧
    inject "hello world" [("bg", "https://cdn.example.com/bg.png")] = "hello world" :=
  ⟨(inject_empty_identity "hello world").1, by decide,
    (inject_empty_identity "hello world").2 "bg" "https://cdn.example.com/bg.png" (by decide)⟩

/-! ## Theorems: `try_parse_json` and the JSON model -/

/-- C5: `try_parse_json` is total — for every input it returns a parsed
value or `None` and never raises (both `json.loads` attempts are guarded by
`except` in the source, modelled by the total `Option`-valued function) —
and on empty or malformed input it returns `None`. -/
theorem try_parse_json_total (s : String) :
    (try_parse_json s = none ∨ ∃ v, try_parse_json s = some v) ∧
    try_parse_json "" = none ∧ try_parse_json "oops" = none := by
  refine ⟨?_, rfl, rfl⟩
  cases h : try_parse_json s with
  | none => exact Or.inl rfl
  | some v => exact Or.inr ⟨v, rfl⟩

theorem charToNat_ofNat {n : Nat} (h : n.isValidChar) : (Char.ofNat n).toNat = n := by
  unfold Char.ofNat
  rw [dif_pos h]
  rfl

theorem charValidNat (c : Char) : c.toNat < 55296 ∨ (57343 < c.toNat ∧ c.toNat < 1114112) := by
  have h := c.valid
  unfold UInt32.isValidChar Nat.isValidChar at h
  exact h

theorem charToNat_inj {c d : Char} (h : c.toNat = d.toNat) : c = d := by
  have h2 := congrArg Char.ofNat h
  rwa [Char.ofNat_toNat, Char.ofNat_toNat] at h2

theorem charNe_of_toNat_ne {c d : Char} (h : c.toNat ≠ d.toNat) : c ≠ d :=
  fun he => h (congrArg Char.toNat he)

theorem charBeq_false {c d : Char} (h : c.toNat ≠ d.toNat) : (c == d) = false :=
  beq_eq_false_iff_ne.mpr (charNe_of_toNat_ne h)

theorem isDigit_toNat {c : Char} (h : c.isDigit = true) : 48 ≤ c.toNat ∧ c.toNat ≤ 57 := by
  unfold Char.isDigit at h
  rw [Bool.and_eq_true, decide_eq_true_eq, decide_eq_true_eq] at h
  obtain ⟨h1, h2⟩ := h
  exact ⟨UInt32.le_def.mp h1, UInt32.le_def.mp h2⟩

theorem isDigit_of_toNat {c : Char} (h1 : 48 ≤ c.toNat) (h2 : c.toNat ≤ 57) :
    c.isDigit = true := by
  unfold Char.isDigit
  rw [Bool.and_eq_true, decide_eq_true_eq, decide_eq_true_eq]
  exact ⟨UInt32.le_def.mpr h1, UInt32.le_def.mpr h2⟩

theorem isDigit_false_of_toNat {c : Char} (h : c.toNat < 48 ∨ 57 < c.toNat) :
    c.isDigit = false := by
  cases hd : c.isDigit
  · rfl
  · obtain ⟨h1, h2⟩ := isDigit_toNat hd
    omega

theorem jsonWs_false {c : Char} (h : c.toNat ≠ 32 ∧ c.toNat ≠ 9 ∧ c.toNat ≠ 10 ∧ c.toNat ≠ 13) :
    jsonWs c = false := by
  unfold jsonWs
  rw [charBeq_false (by simpa using h.1), charBeq_false (by simpa using h.2.1),
    charBeq_false (by simpa using h.2.2.1), charBeq_false (by simpa using h.2.2.2)]
  rfl

theorem skipWs_cons {c : Char} (cs : List Char) (h : jsonWs c = false) :
    skipWs (c :: cs) = c :: cs := by
  unfold skipWs
  rw [List.dropWhile_cons, h]
  rfl

theorem skipWs_space (cs : List Char) : skipWs (' ' :: cs) = skipWs cs := by
  unfold skipWs
  rw [List.dropWhile_cons]
  rfl

theorem digitChar_toNat {d : Nat} (h : d < 10) : (digitChar d).toNat = 48 + d := by
  unfold digitChar
  exact charToNat_ofNat (Or.inl (by omega))

theorem digitChar_isDigit {d : Nat} (h : d < 10) : (digitChar d).isDigit = true :=
  isDigit_of_toNat (by rw [digitChar_toNat h]; omega) (by rw [digitChar_toNat h]; omega)

theorem natDigitsGo_fuel : ∀ n f g acc, n < f → n < g →
    natDigitsGo f n acc = natDigitsGo g n acc := by
  intro n
  induction n using Nat.strong_induction_on with
  | _ n ih =>
    intro f g acc hf hg
    obtain ⟨fp, rfl⟩ : ∃ fp, f = fp + 1 := ⟨f - 1, by omega⟩
    obtain ⟨gp, rfl⟩ : ∃ gp, g = gp + 1 := ⟨g - 1, by omega⟩
    by_cases hn : n = 0
    · subst hn; rfl
    · rw [natDigitsGo, natDigitsGo, if_neg hn, if_neg hn]
      exact ih (n / 10) (by omega) fp gp _ (by omega) (by omega)

theorem natDigitsGo_acc : ∀ n f acc, n ≤ f →
    natDigitsGo f n acc = natDigitsGo f n [] ++ acc := by
  intro n
  induction n using Nat.strong_induction_on with
  | _ n ih =>
    intro f acc hf
    by_cases hn : n = 0
    · subst hn
      cases f with
      | zero => rfl
      | succ fp => rfl
    · obtain ⟨fp, rfl⟩ : ∃ fp, f = fp + 1 := ⟨f - 1, by omega⟩
      rw [natDigitsGo, if_neg hn]
      conv_rhs => rw [natDigitsGo, if_neg hn]
      rw [ih (n / 10) (by omega) fp _ (by omega), ih (n / 10) (by omega) fp [digitChar (n % 10)] (by omega)]
      simp [List.append_assoc]

theorem natChars_small {n : Nat} (h1 : 1 ≤ n) (h2 : n < 10) :
    natChars n = [digitChar n] := by
  unfold natChars
  rw [if_neg (by omega), natDigitsGo, if_neg (by omega)]
  have h10 : n / 10 = 0 := by omega
  have hm : n % 10 = n := by omega
  rw [h10, hm]
  cases hn : n with
  | zero => omega
  | succ m => rw [natDigitsGo, if_pos rfl]

theorem natChars_step {n : Nat} (h : 10 ≤ n) :
    natChars n = natChars (n / 10) ++ [digitChar (n % 10)] := by
  unfold natChars
  rw [if_neg (by omega), if_neg (by omega), natDigitsGo, if_neg (by omega)]
  rw [natDigitsGo_acc (n / 10) n _ (by omega)]
  rw [natDigitsGo_fuel (n / 10) n (n / 10 + 1) [] (by omega) (by omega)]

theorem natChars_digits : ∀ n, ∀ c ∈ natChars n, c.isDigit = true := by
  intro n
  induction n using Nat.strong_induction_on with
  | _ n ih =>
    intro c hc
    by_cases h0 : n = 0
    · subst h0
      unfold natChars at hc
      simp at hc
      subst hc
      decide
    · by_cases h10 : n < 10
      · rw [natChars_small (by omega) h10] at hc
        simp at hc
        subst hc
        exact digitChar_isDigit (by omega)
      · rw [natChars_step (by omega)] at hc
        rw [List.mem_append] at hc
        rcases hc with hc | hc
        · exact ih (n / 10) (by omega) c hc
        · simp at hc
          subst hc
          exact digitChar_isDigit (by omega)

theorem natChars_headD : ∀ n, ∃ c t, natChars n = c :: t ∧ 48 ≤ c.toNat ∧ c.toNat ≤ 57 ∧
    (1 ≤ n → 49 ≤ c.toNat) := by
  intro n
  induction n using Nat.strong_induction_on with
  | _ n ih =>
    by_cases h0 : n = 0
    · subst h0
      exact ⟨'0', [], rfl, by decide, by decide, by omega⟩
    · by_cases h10 : n < 10
      · refine ⟨digitChar n, [], natChars_small (by omega) h10, ?_, ?_, ?_⟩ <;>
          rw [digitChar_toNat (by omega)] <;> omega
      · obtain ⟨c, t, hct, h1, h2, h3⟩ := ih (n / 10) (by omega)
        refine ⟨c, t ++ [digitChar (n % 10)], ?_, h1, h2, fun _ => h3 (by omega)⟩
        rw [natChars_step (by omega), hct, List.cons_append]

theorem digitsToNat_append (ds : List Char) (d : Char) :
    digitsToNat (ds ++ [d]) = digitsToNat ds * 10 + (d.toNat - 48) := by
  unfold digitsToNat
  rw [List.foldl_append]
  rfl

theorem digitsToNat_natChars : ∀ n, digitsToNat (natChars n) = n := by
  intro n
  induction n using Nat.strong_induction_on with
  | _ n ih =>
    by_cases h0 : n = 0
    · subst h0; decide
    · by_cases h10 : n < 10
      · rw [natChars_small (by omega) h10]
        show digitsToNat ([] ++ [digitChar n]) = n
        rw [digitsToNat_append, digitChar_toNat (by omega)]
        show 0 * 10 + (48 + n - 48) = n
        omega
      · rw [natChars_step (by omega), digitsToNat_append, ih (n / 10) (by omega),
          digitChar_toNat (by omega)]
        omega

theorem takeWhile_all_append {p : Char → Bool} : ∀ (a b : List Char),
    (∀ x ∈ a, p x = true) → (∀ c t, b = c :: t → p c = false) →
    (a ++ b).takeWhile p = a ∧ (a ++ b).dropWhile p = b := by
  intro a
  induction a with
  | nil =>
    intro b _ hb
    cases b with
    | nil => exact ⟨rfl, rfl⟩
    | cons c t =>
      rw [List.nil_append, List.takeWhile_cons, List.dropWhile_cons, hb c t rfl]
      exact ⟨rfl, rfl⟩
  | cons x a ih =>
    intro b hx hb
    have px : p x = true := hx x (List.mem_cons_self x a)
    rw [List.cons_append, List.takeWhile_cons, List.dropWhile_cons, px]
    obtain ⟨h1, h2⟩ := ih b (fun y hy => hx y (List.mem_cons_of_mem x hy)) hb
    rw [h1, h2]
    exact ⟨rfl, rfl⟩

theorem floatGuard_safe (n : Nat) {rest : List Char} (h : numSafeRest rest) :
    floatGuard n rest = some (n, rest) := by
  unfold floatGuard
  cases rest with
  | nil => rfl
  | cons c t =>
    simp only [numSafeRest] at h
    have h46 : (c == '.') = false :=
      charBeq_false (show c.toNat ≠ '.'.toNat by rcases h with h | h | h <;> simp [h])
    have h101 : (c == 'e') = false :=
      charBeq_false (show c.toNat ≠ 'e'.toNat by rcases h with h | h | h <;> simp [h])
    have h69 : (c == 'E') = false :=
      charBeq_false (show c.toNat ≠ 'E'.toNat by rcases h with h | h | h <;> simp [h])
    have hf : fracFollows (c :: t) = false := by
      simp only [fracFollows, h46, Bool.false_and]
    have he : expFollows (c :: t) = false := by
      simp only [expFollows, h101, h69, Bool.or_self, Bool.false_and]
    rw [hf, he]
    rfl

theorem numSafeRest_not_digit {c : Char} {t : List Char} (h : numSafeRest (c :: t)) :
    c.isDigit = false := by
  simp only [numSafeRest] at h
  exact isDigit_false_of_toNat (by rcases h with h | h | h <;> omega)

theorem parseUNumber_round (m : Nat) (rest : List Char) (h : numSafeRest rest) :
    parseUNumber (natChars m ++ rest) = some (m, rest) := by
  by_cases h0 : m = 0
  · subst h0
    show parseUNumber ('0' :: rest) = some (0, rest)
    simp only [parseUNumber]
    rw [if_pos trivial]
    exact floatGuard_safe 0 h
  · obtain ⟨c, t, hct, hc1, hc2, hc3⟩ := natChars_headD m
    have hc49 := hc3 (by omega)
    rw [hct, List.cons_append]
    simp only [parseUNumber]
    rw [if_neg (charNe_of_toNat_ne (show c.toNat ≠ '0'.toNat by
      have h48 : '0'.toNat = 48 := rfl
      omega))]
    rw [if_pos (isDigit_of_toNat (by omega) (by omega))]
    rw [← List.cons_append, ← hct]
    obtain ⟨hta, htd⟩ := takeWhile_all_append (natChars m) rest (natChars_digits m)
      (fun c2 t2 he => by subst he; exact numSafeRest_not_digit h)
    rw [hta, htd, digitsToNat_natChars]
    exact floatGuard_safe m h

theorem parseNumber_round (i : Int) (rest : List Char) (h : numSafeRest rest) :
    parseNumber (intChars i ++ rest) = some (i, rest) := by
  by_cases hi : i < 0
  · unfold intChars
    rw [if_pos hi, List.cons_append]
    simp only [parseNumber]
    rw [if_pos trivial, parseUNumber_round (-i).toNat rest h]
    show some (-(((-i).toNat : Int)), rest) = some (i, rest)
    rw [Int.toNat_of_nonneg (show (0 : Int) ≤ -i by omega), neg_neg]
  · unfold intChars
    rw [if_neg hi]
    obtain ⟨c, t, hct, h48, h57, _⟩ := natChars_headD i.toNat
    rw [hct, List.cons_append]
    simp only [parseNumber]
    rw [if_neg (charNe_of_toNat_ne (show c.toNat ≠ '-'.toNat by
      have h45 : '-'.toNat = 45 := rfl
      omega))]
    rw [← List.cons_append, ← hct, parseUNumber_round i.toNat rest h]
    show some ((i.toNat : Int), rest) = some (i, rest)
    rw [Int.toNat_of_nonneg (show (0 : Int) ≤ i by omega)]

theorem parseStr_step_esc {f : Nat} {e ch : Char} {rest : List Char}
    (he : escCharOf e = some ch) :
    parseStrChars (f + 1) ('\\' :: e :: rest) =
      match parseStrChars f rest with
      | some (out, r) => some (ch :: out, r)
      | none => none := by
  have hu : e ≠ 'u' := by
    intro h
    subst h
    rw [show escCharOf 'u' = none from rfl] at he
    exact Option.noConfusion he
  simp only [parseStrChars]
  rw [if_pos trivial, if_neg hu, he, if_neg (show ('\\' : Char) ≠ '"' by decide)]

theorem parseStr_step_lit {f : Nat} {c : Char} {rest : List Char}
    (h1 : c ≠ '"') (h2 : c ≠ '\\') (h3 : 32 ≤ c.toNat) :
    parseStrChars (f + 1) (c :: rest) =
      match parseStrChars f rest with
      | some (out, r) => some (c :: out, r)
      | none => none := by
  simp only [parseStrChars]
  rw [if_neg h1, if_neg h2, if_neg (show ¬(c.toNat < 32) by omega)]

theorem hexVal_hexDigitChar : ∀ d, d < 16 → hexVal (hexDigitChar d) = some d := by decide

theorem hex4_uEscape {n : Nat} (h : n < 65536) :
    hex4 (hexDigitChar (n / 4096 % 16)) (hexDigitChar (n / 256 % 16))
      (hexDigitChar (n / 16 % 16)) (hexDigitChar (n % 16)) = some n := by
  unfold hex4
  rw [hexVal_hexDigitChar (n / 4096 % 16) (by omega), hexVal_hexDigitChar (n / 256 % 16) (by omega),
    hexVal_hexDigitChar (n / 16 % 16) (by omega), hexVal_hexDigitChar (n % 16) (by omega)]
  show some (n / 4096 % 16 * 4096 + n / 256 % 16 * 256 + n / 16 % 16 * 16 + n % 16) = some n
  exact congrArg some (by omega)

theorem parseStr_step_u {f n : Nat} {rest : List Char} (hn : n < 65536)
    (hval : n < 55296 ∨ 57343 < n) :
    parseStrChars (f + 1) (uEscape n ++ rest) =
      match parseStrChars f rest with
      | some (out, r) => some (Char.ofNat n :: out, r)
      | none => none := by
  rw [show uEscape n ++ rest = '\\' :: 'u' :: hexDigitChar (n / 4096 % 16) ::
    hexDigitChar (n / 256 % 16) :: hexDigitChar (n / 16 % 16) :: hexDigitChar (n % 16) :: rest
    from rfl]
  simp only [parseStrChars]
  rw [if_neg (show ('\\' : Char) ≠ '"' by decide), if_pos trivial, hex4_uEscape hn]
  simp only []
  rw [if_neg (show ¬(55296 ≤ n ∧ n ≤ 56319) by omega),
    if_neg (show ¬(56320 ≤ n ∧ n ≤ 57343) by omega), if_pos trivial]

theorem parseStr_step_pair {f v : Nat} {rest : List Char} (hv : v < 1048576) :
    parseStrChars (f + 1)
      (uEscape (55296 + v / 1024) ++ (uEscape (56320 + v % 1024) ++ rest)) =
      match parseStrChars f rest with
      | some (out, r) => some (Char.ofNat (65536 + v) :: out, r)
      | none => none := by
  rw [show uEscape (55296 + v / 1024) ++ (uEscape (56320 + v % 1024) ++ rest) =
    '\\' :: 'u' :: hexDigitChar ((55296 + v / 1024) / 4096 % 16) ::
    hexDigitChar ((55296 + v / 1024) / 256 % 16) :: hexDigitChar ((55296 + v / 1024) / 16 % 16) ::
    hexDigitChar ((55296 + v / 1024) % 16) :: '\\' :: 'u' ::
    hexDigitChar ((56320 + v % 1024) / 4096 % 16) :: hexDigitChar ((56320 + v % 1024) / 256 % 16) ::
    hexDigitChar ((56320 + v % 1024) / 16 % 16) :: hexDigitChar ((56320 + v % 1024) % 16) :: rest
    from rfl]
  simp only [parseStrChars]
  rw [if_neg (show ('\\' : Char) ≠ '"' by decide), if_pos trivial,
    hex4_uEscape (show 55296 + v / 1024 < 65536 by omega)]
  simp only []
  rw [if_pos (show 55296 ≤ 55296 + v / 1024 ∧ 55296 + v / 1024 ≤ 56319 by omega)]
  rw [if_pos trivial, if_pos (show True ∧ True from ⟨trivial, trivial⟩)]
  rw [hex4_uEscape (show 56320 + v % 1024 < 65536 by omega)]
  simp only []
  rw [if_pos (show 56320 ≤ 56320 + v % 1024 ∧ 56320 + v % 1024 ≤ 57343 by omega)]
  rw [show 65536 + (55296 + v / 1024 - 55296) * 1024 + (56320 + v % 1024 - 56320) = 65536 + v
    from by omega]

theorem escChars_round : ∀ (cs rest : List Char) (fuel : Nat), cs.length + 1 ≤ fuel →
    parseStrChars fuel (escChars cs ++ '"' :: rest) = some (cs, rest) := by
  intro cs
  induction cs with
  | nil =>
    intro rest fuel hf
    obtain ⟨f, rfl⟩ : ∃ f, fuel = f + 1 := ⟨fuel - 1, by omega⟩
    show parseStrChars (f + 1) ('"' :: rest) = some ([], rest)
    simp only [parseStrChars]
    rw [if_pos trivial]
  | cons c cs ih =>
    intro rest fuel hf
    obtain ⟨f, rfl⟩ : ∃ f, fuel = f + 1 := ⟨fuel - 1, by omega⟩
    have hfr : cs.length + 1 ≤ f := by rw [List.length_cons] at hf; omega
    rw [show escChars (c :: cs) = jsonEscapeChar c ++ escChars cs from rfl, List.append_assoc]
    by_cases h1 : c = '"'
    · subst h1
      rw [show jsonEscapeChar '"' = ['\\', '"'] from rfl, List.cons_append, List.cons_append,
        List.nil_append, parseStr_step_esc (show escCharOf '"' = some '"' from rfl),
        ih rest f hfr]
    · by_cases h2 : c = '\\'
      · subst h2
        rw [show jsonEscapeChar '\\' = ['\\', '\\'] from rfl, List.cons_append, List.cons_append,
          List.nil_append, parseStr_step_esc (show escCharOf '\\' = some '\\' from rfl),
          ih rest f hfr]
      · by_cases h8 : c.toNat = 8
        · have hj : jsonEscapeChar c = ['\\', 'b'] := by
            unfold jsonEscapeChar
            rw [if_neg h1, if_neg h2, if_pos h8]
          rw [hj, List.cons_append, List.cons_append, List.nil_append,
            parseStr_step_esc (show escCharOf 'b' = some (Char.ofNat 8) from rfl),
            ih rest f hfr, show Char.ofNat 8 = c from by rw [← h8, Char.ofNat_toNat]]
        · by_cases h9 : c.toNat = 9
          · have hj : jsonEscapeChar c = ['\\', 't'] := by
              unfold jsonEscapeChar
              rw [if_neg h1, if_neg h2, if_neg h8, if_pos h9]
            rw [hj, List.cons_append, List.cons_append, List.nil_append,
              parseStr_step_esc (show escCharOf 't' = some (Char.ofNat 9) from rfl),
              ih rest f hfr, show Char.ofNat 9 = c from by rw [← h9, Char.ofNat_toNat]]
          · by_cases h10 : c.toNat = 10
            · have hj : jsonEscapeChar c = ['\\', 'n'] := by
                unfold jsonEscapeChar
                rw [if_neg h1, if_neg h2, if_neg h8, if_neg h9, if_pos h10]
              rw [hj, List.cons_append, List.cons_append, List.nil_append,
                parseStr_step_esc (show escCharOf 'n' = some (Char.ofNat 10) from rfl),
                ih rest f hfr, show Char.ofNat 10 = c from by rw [← h10, Char.ofNat_toNat]]
            · by_cases h12 : c.toNat = 12
              · have hj : jsonEscapeChar c = ['\\', 'f'] := by
                  unfold jsonEscapeChar
                  rw [if_neg h1, if_neg h2, if_neg h8, if_neg h9, if_neg h10, if_pos h12]
                rw [hj, List.cons_append, List.cons_append, List.nil_append,
                  parseStr_step_esc (show escCharOf 'f' = some (Char.ofNat 12) from rfl),
                  ih rest f hfr, show Char.ofNat 12 = c from by rw [← h12, Char.ofNat_toNat]]
              · by_cases h13 : c.toNat = 13
                · have hj : jsonEscapeChar c = ['\\', 'r'] := by
                    unfold jsonEscapeChar
                    rw [if_neg h1, if_neg h2, if_neg h8, if_neg h9, if_neg h10, if_neg h12,
                      if_pos h13]
                  rw [hj, List.cons_append, List.cons_append, List.nil_append,
                    parseStr_step_esc (show escCharOf 'r' = some (Char.ofNat 13) from rfl),
                    ih rest f hfr, show Char.ofNat 13 = c from by rw [← h13, Char.ofNat_toNat]]
                · by_cases hpr : 32 ≤ c.toNat ∧ c.toNat ≤ 126
                  · have hj : jsonEscapeChar c = [c] := by
                      unfold jsonEscapeChar
                      rw [if_neg h1, if_neg h2, if_neg h8, if_neg h9, if_neg h10, if_neg h12,
                        if_neg h13, if_pos hpr]
                    rw [hj, List.cons_append, List.nil_append,
                      parseStr_step_lit h1 h2 hpr.1, ih rest f hfr]
                  · by_cases hbmp : c.toNat < 65536
                    · have hj : jsonEscapeChar c = uEscape c.toNat := by
                        unfold jsonEscapeChar
                        rw [if_neg h1, if_neg h2, if_neg h8, if_neg h9, if_neg h10, if_neg h12,
                          if_neg h13, if_neg hpr, if_pos hbmp]
                      have hval : c.toNat < 55296 ∨ 57343 < c.toNat := by
                        rcases charValidNat c with h | h
                        · exact Or.inl h
                        · exact Or.inr h.1
                      rw [hj, parseStr_step_u hbmp hval, ih rest f hfr, Char.ofNat_toNat]
                    · have hj : jsonEscapeChar c =
                          uEscape (55296 + (c.toNat - 65536) / 1024) ++
                          uEscape (56320 + (c.toNat - 65536) % 1024) := by
                        unfold jsonEscapeChar
                        rw [if_neg h1, if_neg h2, if_neg h8, if_neg h9, if_neg h10, if_neg h12,
                          if_neg h13, if_neg hpr, if_neg hbmp]
                      have hv : c.toNat - 65536 < 1048576 := by
                        rcases charValidNat c with h | h
                        · omega
                        · omega
                      rw [hj, List.append_assoc, parseStr_step_pair hv, ih rest f hfr,
                        show 65536 + (c.toNat - 65536) = c.toNat from by omega,
                        Char.ofNat_toNat]

theorem objApp_nil : ∀ a : JObj, objApp a .nil = a
  | .nil => rfl
  | .cons k v ms => by rw [objApp, objApp_nil ms]

theorem hasKey_objApp : ∀ (a : JObj) (b : JObj) (k : String),
    hasKey (objApp a b) k = (hasKey a k || hasKey b k)
  | .nil, b, k => by rw [objApp, hasKey, Bool.false_or]
  | .cons k0 v0 ms, b, k => by
    rw [objApp, hasKey, hasKey, hasKey_objApp ms b k, Bool.or_assoc]

theorem pyDictSet_fresh : ∀ (a : JObj) (k : String) (v : JVal), hasKey a k = false →
    pyDictSet a k v = objApp a (.cons k v .nil)
  | .nil, k, v, _ => rfl
  | .cons k0 v0 ms, k, v, h => by
    rw [hasKey, Bool.or_eq_false_iff] at h
    rw [pyDictSet, if_neg (beq_eq_false_iff_ne.mp h.1), objApp, pyDictSet_fresh ms k v h.2]

theorem objApp_assoc : ∀ a b c : JObj, objApp (objApp a b) c = objApp a (objApp b c)
  | .nil, _, _ => rfl
  | .cons k v ms, b, c => by rw [objApp, objApp, objApp, objApp_assoc ms b c]

theorem pyDictBuild_fresh : ∀ (ms acc : JObj),
    (∀ k, hasKey ms k = true → hasKey acc k = false) → noDupKeys ms = true →
    pyDictBuild acc ms = objApp acc ms
  | .nil, acc, _, _ => by rw [pyDictBuild, objApp_nil]
  | .cons k v ms, acc, hfresh, hnd => by
    rw [noDupKeys, Bool.and_eq_true] at hnd
    obtain ⟨hk, hnd⟩ := hnd
    rw [Bool.not_eq_eq_eq_not, Bool.not_true] at hk
    have hacck : hasKey acc k = false := by
      refine hfresh k ?_
      rw [hasKey, Bool.or_eq_true]
      exact Or.inl (beq_self_eq_true k)
    rw [pyDictBuild, pyDictSet_fresh acc k v hacck]
    rw [pyDictBuild_fresh ms (objApp acc (.cons k v .nil)) ?_ hnd]
    · rw [objApp_assoc]
      rfl
    · intro k2 hk2
      rw [hasKey_objApp, Bool.or_eq_false_iff]
      constructor
      · refine hfresh k2 ?_
        rw [hasKey, Bool.or_eq_true]
        exact Or.inr hk2
      · rw [hasKey, hasKey, Bool.or_false]
        cases hbeq : k == k2
        · rfl
        · exfalso
          rw [beq_iff_eq] at hbeq
          subst hbeq
          rw [hk2] at hk
          exact Bool.noConfusion hk

theorem mkPyDict_nodup {ms : JObj} (h : noDupKeys ms = true) : mkPyDict ms = ms := by
  unfold mkPyDict
  rw [pyDictBuild_fresh ms .nil (fun k _ => rfl) h]
  rfl

theorem intChars_ne_nil (i : Int) : intChars i ≠ [] := by
  unfold intChars
  by_cases hi : i < 0
  · rw [if_pos hi]
    exact List.cons_ne_nil _ _
  · rw [if_neg hi]
    obtain ⟨c, t, hct, _, _, _⟩ := natChars_headD i.toNat
    rw [hct]
    exact List.cons_ne_nil _ _

mutual
theorem sizeJ_le_dump : ∀ v : JVal, sizeJ v ≤ (dumpJ v).length
  | .jnull => by simp [sizeJ, dumpJ]
  | .jbool true => by simp [sizeJ, dumpJ]
  | .jbool false => by simp [sizeJ, dumpJ]
  | .jint n => by
    simp only [sizeJ, dumpJ]
    rw [Nat.one_le_iff_ne_zero]
    simp [intChars_ne_nil n]
  | .jstr s => by simp [sizeJ, dumpJ, jsonQuoteChars]
  | .jarr .nil => by simp [sizeJ, sizeArr, dumpJ]
  | .jarr (.cons x xs) => by
    have h1 := sizeJ_le_dump x
    have h2 := sizeArr_le_dump xs
    simp only [sizeJ, sizeArr, dumpJ, List.length_cons, List.length_append]
    omega
  | .jobj .nil => by simp [sizeJ, sizeObj, dumpJ]
  | .jobj (.cons k v ms) => by
    have h1 := sizeJ_le_dump v
    have h2 := sizeObj_le_dump ms
    simp only [sizeJ, sizeObj, dumpJ, List.length_cons, List.length_append]
    omega

theorem sizeArr_le_dump : ∀ l : JArr, sizeArr l + 1 ≤ (dumpArrTail l).length
  | .nil => by simp [sizeArr, dumpArrTail]
  | .cons x xs => by
    have h1 := sizeJ_le_dump x
    have h2 := sizeArr_le_dump xs
    simp only [sizeArr, dumpArrTail, List.length_cons, List.length_append]
    omega

theorem sizeObj_le_dump : ∀ m : JObj, sizeObj m + 1 ≤ (dumpObjTail m).length
  | .nil => by simp [sizeObj, dumpObjTail]
  | .cons k v ms => by
    have h1 := sizeJ_le_dump v
    have h2 := sizeObj_le_dump ms
    simp only [sizeObj, dumpObjTail, List.length_cons, List.length_append]
    omega
end

theorem sizeJ_pos : ∀ v : JVal, 1 ≤ sizeJ v := by
  intro v
  cases v <;> simp [sizeJ]

theorem dumpJ_head : ∀ v : JVal, ∃ c t, dumpJ v = c :: t ∧ jsonWs c = false ∧
    c.toNat ≠ 93 ∧ c.toNat ≠ 125 ∧ c.toNat ≠ 44 := by
  intro v
  cases v with
  | jnull => exact ⟨'n', _, rfl, by decide, by decide, by decide, by decide⟩
  | jbool b =>
    cases b
    · exact ⟨'f', _, rfl, by decide, by decide, by decide, by decide⟩
    · exact ⟨'t', _, rfl, by decide, by decide, by decide, by decide⟩
  | jint n =>
    show ∃ c t, intChars n = c :: t ∧ _
    unfold intChars
    by_cases hi : n < 0
    · rw [if_pos hi]
      exact ⟨'-', _, rfl, by decide, by decide, by decide, by decide⟩
    · rw [if_neg hi]
      obtain ⟨c, t, hct, h48, h57, _⟩ := natChars_headD n.toNat
      exact ⟨c, t, hct, jsonWs_false (by omega), by omega, by omega, by omega⟩
  | jstr s => exact ⟨'"', _, rfl, by decide, by decide, by decide, by decide⟩
  | jarr l =>
    cases l
    · exact ⟨'[', _, rfl, by decide, by decide, by decide, by decide⟩
    · exact ⟨'[', _, rfl, by decide, by decide, by decide, by decide⟩
  | jobj m =>
    cases m
    · exact ⟨lbrace, _, rfl, by decide, by decide, by decide, by decide⟩
    · exact ⟨lbrace, _, rfl, by decide, by decide, by decide, by decide⟩

theorem escChars_len : ∀ cs : List Char, cs.length ≤ (escChars cs).length := by
  intro cs
  induction cs with
  | nil => simp [escChars]
  | cons c cs ih =>
    rw [escChars, List.length_append, List.length_cons]
    have h1 : 1 ≤ (jsonEscapeChar c).length := by
      unfold jsonEscapeChar
      split_ifs <;> simp [uEscape]
    omega

theorem parseValue_ws (fuel : Nat) (cs : List Char) :
    parseValue fuel (' ' :: cs) = parseValue fuel cs := by
  cases fuel with
  | zero => rfl
  | succ f => simp only [parseValue, skipWs_space]

theorem parseElems_ws (fuel : Nat) (cs : List Char) :
    parseElems fuel (' ' :: cs) = parseElems fuel cs := by
  cases fuel with
  | zero => rfl
  | succ f => simp only [parseElems, parseValue_ws]

theorem numSafeRest_arrTail (xs : JArr) (rest : List Char) :
    numSafeRest (dumpArrTail xs ++ rest) := by
  cases xs with
  | nil =>
    show numSafeRest (']' :: rest)
    exact Or.inr (Or.inl rfl)
  | cons y ys =>
    show numSafeRest (',' :: _)
    exact Or.inl rfl

theorem numSafeRest_objTail (ms : JObj) (rest : List Char) :
    numSafeRest (dumpObjTail ms ++ rest) := by
  cases ms with
  | nil =>
    show numSafeRest (rbrace :: rest)
    exact Or.inr (Or.inr (by decide))
  | cons k2 v2 ms2 =>
    show numSafeRest (',' :: _)
    exact Or.inl rfl

theorem intChars_head : ∀ i : Int, ∃ c t, intChars i = c :: t ∧
    (c.toNat = 45 ∨ (48 ≤ c.toNat ∧ c.toNat ≤ 57)) := by
  intro i
  unfold intChars
  by_cases hi : i < 0
  · rw [if_pos hi]
    exact ⟨'-', _, rfl, Or.inl rfl⟩
  · rw [if_neg hi]
    obtain ⟨c, t, hct, h48, h57, _⟩ := natChars_headD i.toNat
    exact ⟨c, t, hct, Or.inr ⟨h48, h57⟩⟩

theorem parse_dump_all : ∀ fuel : Nat,
    (∀ (v : JVal) (rest : List Char), wfJ v = true → numSafeRest rest → sizeJ v ≤ fuel →
      parseValue fuel (dumpJ v ++ rest) = some (v, rest)) ∧
    (∀ (x : JVal) (xs : JArr) (rest : List Char), wfJ x = true → wfArr xs = true →
      numSafeRest rest → sizeArr (.cons x xs) ≤ fuel →
      parseElems fuel (dumpJ x ++ (dumpArrTail xs ++ rest)) = some (.cons x xs, rest)) ∧
    (∀ (k : String) (v : JVal) (ms : JObj) (rest : List Char), wfJ v = true → wfObj ms = true →
      numSafeRest rest → sizeObj (.cons k v ms) ≤ fuel →
      parseMembers fuel
        (jsonQuoteChars k.data ++ (':' :: ' ' :: (dumpJ v ++ (dumpObjTail ms ++ rest)))) =
        some (.cons k v ms, rest)) := by
  intro fuel
  induction fuel using Nat.strong_induction_on with
  | _ fuel ih =>
    refine ⟨?_, ?_, ?_⟩
    · intro v rest hwf hsafe hsz
      obtain ⟨f, rfl⟩ : ∃ f, fuel = f + 1 := ⟨fuel - 1, by have := sizeJ_pos v; omega⟩
      obtain ⟨ihPV, ihPE, ihPM⟩ := ih f (by omega)
      cases v with
      | jnull => exact rfl
      | jbool b => cases b <;> exact rfl
      | jint n =>
        obtain ⟨c, t, hct, hc⟩ := intChars_head n
        have h34 : ('"' : Char).toNat = 34 := rfl
        have h123 : lbrace.toNat = 123 := rfl
        have h91 : ('[' : Char).toNat = 91 := rfl
        have h116 : ('t' : Char).toNat = 116 := rfl
        have h102 : ('f' : Char).toNat = 102 := rfl
        have h110 : ('n' : Char).toNat = 110 := rfl
        rw [show dumpJ (.jint n) = intChars n from rfl, hct, List.cons_append]
        simp only [parseValue]
        rw [skipWs_cons _ (jsonWs_false (by omega))]
        simp only []
        rw [if_neg (charNe_of_toNat_ne (by omega)), if_neg (charNe_of_toNat_ne (by omega)),
          if_neg (charNe_of_toNat_ne (by omega)), if_neg (charNe_of_toNat_ne (by omega)),
          if_neg (charNe_of_toNat_ne (by omega)), if_neg (charNe_of_toNat_ne (by omega))]
        rw [if_pos (show c = '-' ∨ c.isDigit = true from hc.elim
          (fun h => Or.inl (charToNat_inj (by rw [h]; rfl)))
          (fun h => Or.inr (isDigit_of_toNat h.1 h.2)))]
        rw [← List.cons_append, ← hct, parseNumber_round n rest hsafe]
      | jstr s =>
        rw [show dumpJ (.jstr s) = '"' :: (escChars s.data ++ ['"']) from rfl, List.cons_append]
        simp only [parseValue]
        rw [skipWs_cons _ (by decide)]
        simp only []
        rw [if_pos trivial]
        rw [List.append_assoc, List.singleton_append]
        rw [escChars_round s.data rest _ (by
          rw [List.length_append, List.length_cons]
          have := escChars_len s.data
          omega)]
      | jarr l =>
        cases l with
        | nil => exact rfl
        | cons x xs =>
          rw [show dumpJ (.jarr (.cons x xs)) = '[' :: (dumpJ x ++ dumpArrTail xs) from rfl,
            List.cons_append]
          simp only [parseValue]
          rw [skipWs_cons _ (by decide)]
          simp only []
          rw [if_neg (show ('[' : Char) ≠ '"' by decide),
            if_neg (show ('[' : Char) ≠ lbrace by decide), if_pos trivial]
          rw [List.append_assoc]
          obtain ⟨cx, tx, hcx, hwsx, hne93, hne125, hne44⟩ := dumpJ_head x
          rw [hcx, List.cons_append, skipWs_cons _ hwsx]
          simp only []
          rw [if_neg (charNe_of_toNat_ne (show cx.toNat ≠ (']' : Char).toNat by
            have h93 : (']' : Char).toNat = 93 := rfl
            omega))]
          rw [← List.cons_append, ← hcx]
          rw [wfJ, wfArr, Bool.and_eq_true] at hwf
          rw [ihPE x xs rest hwf.1 hwf.2 hsafe (by rw [sizeJ] at hsz; omega)]
      | jobj m =>
        cases m with
        | nil => exact rfl
        | cons k v ms =>
          rw [show dumpJ (.jobj (.cons k v ms)) =
            lbrace :: (jsonQuoteChars k.data ++ ':' :: ' ' :: (dumpJ v ++ dumpObjTail ms))
            from rfl, List.cons_append]
          simp only [parseValue]
          rw [skipWs_cons _ (by decide)]
          simp only []
          rw [if_neg (show lbrace ≠ '"' by decide), if_pos trivial]
          rw [List.append_assoc]
          obtain ⟨tq, hcq⟩ : ∃ t, jsonQuoteChars k.data = '"' :: t := ⟨_, rfl⟩
          rw [hcq, List.cons_append, skipWs_cons _ (by decide)]
          simp only []
          rw [if_neg (show ('"' : Char) ≠ rbrace by decide)]
          rw [← List.cons_append, ← hcq]
          rw [show (':' :: ' ' :: (dumpJ v ++ dumpObjTail ms)) ++ rest =
            ':' :: ' ' :: (dumpJ v ++ (dumpObjTail ms ++ rest)) from by
            simp [List.cons_append, List.append_assoc]]
          rw [wfJ, Bool.and_eq_true] at hwf
          have hwfobj := hwf.2
          rw [wfObj, Bool.and_eq_true] at hwfobj
          rw [ihPM k v ms rest hwfobj.1 hwfobj.2 hsafe (by rw [sizeJ] at hsz; omega)]
          simp only []
          rw [mkPyDict_nodup hwf.1]
    · intro x xs rest hwfx hwfxs hsafe hsz
      obtain ⟨f, rfl⟩ : ∃ f, fuel = f + 1 := ⟨fuel - 1, by
        have h1 : 1 ≤ sizeArr (.cons x xs) := by rw [sizeArr]; omega
        omega⟩
      obtain ⟨ihPV, ihPE, ihPM⟩ := ih f (by omega)
      simp only [parseElems]
      rw [ihPV x (dumpArrTail xs ++ rest) hwfx (numSafeRest_arrTail xs rest)
        (by rw [sizeArr] at hsz; omega)]
      simp only []
      cases xs with
      | nil =>
        rw [show dumpArrTail JArr.nil ++ rest = ']' :: rest from rfl, skipWs_cons _ (by decide)]
        simp only []
        rw [if_pos trivial]
      | cons y ys =>
        rw [show dumpArrTail (.cons y ys) ++ rest =
          ',' :: (' ' :: (dumpJ y ++ (dumpArrTail ys ++ rest))) from by
          simp [dumpArrTail, List.cons_append, List.append_assoc]]
        rw [skipWs_cons _ (by decide)]
        simp only []
        rw [if_neg (show (',' : Char) ≠ ']' by decide), if_pos trivial]
        rw [parseElems_ws]
        rw [wfArr, Bool.and_eq_true] at hwfxs
        rw [ihPE y ys rest hwfxs.1 hwfxs.2 hsafe (by
          rw [sizeArr, sizeArr] at hsz
          rw [sizeArr]
          have := sizeJ_pos x
          omega)]
    · intro k v ms rest hwfv hwfms hsafe hsz
      obtain ⟨f, rfl⟩ : ∃ f, fuel = f + 1 := ⟨fuel - 1, by
        have h1 : 1 ≤ sizeObj (.cons k v ms) := by rw [sizeObj]; omega
        omega⟩
      obtain ⟨ihPV, ihPE, ihPM⟩ := ih f (by omega)
      rw [show jsonQuoteChars k.data ++ (':' :: ' ' :: (dumpJ v ++ (dumpObjTail ms ++ rest))) =
        '"' :: (escChars k.data ++ ('"' :: (':' :: ' ' :: (dumpJ v ++ (dumpObjTail ms ++ rest)))))
        from by simp [jsonQuoteChars, List.cons_append, List.append_assoc]]
      simp only [parseMembers]
      rw [if_pos trivial]
      rw [escChars_round k.data _ _ (by
        rw [List.length_append, List.length_cons]
        have := escChars_len k.data
        omega)]
      simp only []
      rw [skipWs_cons _ (by decide)]
      simp only []
      rw [if_pos trivial]
      rw [parseValue_ws]
      rw [ihPV v (dumpObjTail ms ++ rest) hwfv (numSafeRest_objTail ms rest)
        (by rw [sizeObj] at hsz; omega)]
      simp only []
      cases ms with
      | nil =>
        rw [show dumpObjTail JObj.nil ++ rest = rbrace :: rest from rfl,
          skipWs_cons _ (by decide)]
        simp only []
        rw [if_pos trivial]
      | cons k2 v2 ms2 =>
        rw [show dumpObjTail (.cons k2 v2 ms2) ++ rest =
          ',' :: (' ' :: ((jsonQuoteChars k2.data ++ ':' :: ' ' :: (dumpJ v2 ++ dumpObjTail ms2)) ++ rest))
          from by simp [dumpObjTail, List.cons_append, List.append_assoc]]
        rw [skipWs_cons _ (by decide)]
        simp only []
        rw [if_neg (show (',' : Char) ≠ rbrace by decide), if_pos trivial]
        rw [skipWs_space]
        rw [show (jsonQuoteChars k2.data ++ ':' :: ' ' :: (dumpJ v2 ++ dumpObjTail ms2)) ++ rest =
          jsonQuoteChars k2.data ++ (':' :: ' ' :: (dumpJ v2 ++ (dumpObjTail ms2 ++ rest))) from by
          simp [List.cons_append, List.append_assoc]]
        obtain ⟨tq, hcq⟩ : ∃ t, jsonQuoteChars k2.data = '"' :: t := ⟨_, rfl⟩
        rw [hcq, List.cons_append, skipWs_cons _ (by decide), ← List.cons_append, ← hcq]
        rw [wfObj, Bool.and_eq_true] at hwfms
        rw [ihPM k2 v2 ms2 rest hwfms.1 hwfms.2 hsafe (by
          rw [sizeObj, sizeObj] at hsz
          rw [sizeObj]
          have := sizeJ_pos v
          omega)]

theorem jsonLoads_dump (v : JVal) (h : wfJ v = true) : jsonLoads (jsonDumps v) = some v := by
  have hp := (parse_dump_all ((dumpJ v).length + 1)).1 v [] h trivial
    (by have := sizeJ_le_dump v; omega)
  rw [List.append_nil] at hp
  unfold jsonLoads jsonDumps
  rw [show (String.mk (dumpJ v)).data = dumpJ v from rfl, hp]
  rfl

theorem dropWhile_append_of_all {α : Type} (pr : α → Bool) :
    ∀ (l1 l2 : List α), (∀ c ∈ l1, pr c = true) →
      (l1 ++ l2).dropWhile pr = l2.dropWhile pr := by
  intro l1
  induction l1 with
  | nil => intro l2 _; rfl
  | cons a t ih =>
    intro l2 h
    rw [List.cons_append, List.dropWhile_cons, if_pos (h a (List.mem_cons_self a t))]
    exact ih l2 (fun c hc => h c (List.mem_cons_of_mem a hc))

theorem dumpObjTail_ends : ∀ m : JObj, ∃ t, dumpObjTail m = t ++ [rbrace]
  | .nil => ⟨[], rfl⟩
  | .cons k v ms => by
    obtain ⟨t, ht⟩ := dumpObjTail_ends ms
    exact ⟨',' :: ' ' :: (jsonQuoteChars k.data ++ ':' :: ' ' :: (dumpJ v ++ t)), by
      rw [dumpObjTail, ht]
      simp [List.cons_append, List.append_assoc]⟩

theorem dumpJobj_shape (ms : JObj) : ∃ mid, dumpJ (.jobj ms) = lbrace :: (mid ++ [rbrace]) := by
  cases ms with
  | nil => exact ⟨[], rfl⟩
  | cons k v ms2 =>
    obtain ⟨t, ht⟩ := dumpObjTail_ends ms2
    refine ⟨jsonQuoteChars k.data ++ ':' :: ' ' :: (dumpJ v ++ t), ?_⟩
    rw [dumpJ, ht]
    simp [List.cons_append, List.append_assoc]

theorem extractBraceSpan_sandwich (p s mid : List Char)
    (hp : ∀ c ∈ p, (c == lbrace) = false)
    (hs : ∀ c ∈ s, (c == rbrace) = false) :
    extractBraceSpan (p ++ ((lbrace :: (mid ++ [rbrace])) ++ s)) =
      some (lbrace :: (mid ++ [rbrace])) := by
  simp only [extractBraceSpan]
  rw [dropWhile_append_of_all _ p _ (fun c hc => by
    simp [hp c hc])]
  rw [List.cons_append, List.dropWhile_cons,
    if_neg (show ¬((!(lbrace == lbrace) : Bool) = true) from by decide)]
  rw [show (lbrace :: ((mid ++ [rbrace]) ++ s)).reverse =
    s.reverse ++ (rbrace :: (mid.reverse ++ [lbrace])) from by
    simp [List.reverse_cons, List.reverse_append, List.append_assoc]]
  rw [dropWhile_append_of_all _ s.reverse _ (fun c hc => by
    simp [hs c (List.mem_reverse.mp hc)])]
  rw [List.dropWhile_cons,
    if_neg (show ¬((!(rbrace == rbrace) : Bool) = true) from by decide)]
  rw [show (rbrace :: (mid.reverse ++ [lbrace])).reverse = lbrace :: (mid ++ [rbrace]) from by
    simp [List.reverse_cons, List.reverse_append, List.append_assoc]]
  rw [if_neg (show ¬((lbrace :: (mid ++ [rbrace])).isEmpty = true) from by simp)]

/-- C10: for every well-formed JSON object value `d` (integer numbers, distinct
keys per object level — a Python `dict` cannot carry duplicates) and all
brace-free prefix and suffix strings, `try_parse_json` applied to
`prefix ++ json.dumps(d) ++ suffix` returns `d`: the regex `\x7b.*\x7d` span
runs exactly over the serialised object and `json.loads` round-trips it. -/
theorem try_parse_json_round_trip (ms : JObj) (p s : String)
    (hwf : wfJ (.jobj ms) = true)
    (hp : braceFree p = true) (hs : braceFree s = true) :
    try_parse_json (p ++ jsonDumps (.jobj ms) ++ s) = some (.jobj ms) := by
  obtain ⟨mid, hmid⟩ := dumpJobj_shape ms
  unfold braceFree at hp hs
  have hp2 : ∀ c ∈ p.data, (c == lbrace) = false := by
    intro c hc
    have h2 := List.all_eq_true.mp hp c hc
    rw [Bool.and_eq_true] at h2
    simpa using h2.1
  have hs2 : ∀ c ∈ s.data, (c == rbrace) = false := by
    intro c hc
    have h2 := List.all_eq_true.mp hs c hc
    rw [Bool.and_eq_true] at h2
    simpa using h2.2
  have hdata : (p ++ jsonDumps (.jobj ms) ++ s).data
      = p.data ++ ((lbrace :: (mid ++ [rbrace])) ++ s.data) := by
    rw [String.data_append, String.data_append]
    rw [show (jsonDumps (.jobj ms)).data = dumpJ (.jobj ms) from rfl, hmid]
    rw [List.append_assoc]
  unfold try_parse_json
  rw [hdata, extractBraceSpan_sandwich p.data s.data mid hp2 hs2]
  simp only []
  rw [show (String.mk (lbrace :: (mid ++ [rbrace]))) = jsonDumps (.jobj ms) from by
    rw [jsonDumps, hmid]]
  rw [jsonLoads_dump _ hwf]

theorem try_parse_json_round_trip_witness :
    wfJ (.jobj (.cons "a" (.jint 1) .nil)) = true ∧
    braceFree "see " = true ∧ braceFree " ok." = true ∧
    try_parse_json ("see " ++ jsonDumps (.jobj (.cons "a" (.jint 1) .nil)) ++ " ok.") =
      some (.jobj (.cons "a" (.jint 1) .nil)) :=
  ⟨by decide, by decide, by decide,
    try_parse_json_round_trip (.cons "a" (.jint 1) .nil) "see " " ok."
      (by decide) (by decide) (by decide)⟩
